import Mathlib

/-!
# Verification of the audiotab audio framework

Shallow embedding of the audiotab repository's data model and core
operations, together with theorems settling the specification claims.

Conventions used throughout:
* Rust `f64` sample values are modelled as exact rationals (`ℚ`).  Every
  floating-point operation that the verified code paths perform on them is
  a power-of-two scaling of an integer of at most 53 bits, which IEEE-754
  double arithmetic computes exactly, so the rational model is faithful on
  those paths.
* Rust machine integers are modelled as `Int`/`Nat` with explicit range
  side conditions where the Rust type would enforce them.
* Fallible Rust functions returning `anyhow::Result` are modelled with
  `Except`; Rust panics (integer division by zero, `unwrap`, slice index
  out of bounds) are modelled as distinguished error constructors so that
  a returned error and an abort stay observably different.
* `HashMap` is modelled as an association list with distinct keys;
  iteration order is the list order.
-/

namespace Audiotab

/-! ## Pipeline state machine (`src/engine/state.rs`) -/

/-- `PipelineState` from `src/engine/state.rs`.  `Instant` and `Duration`
payloads are opaque to every verified operation and are modelled as
`Option Nat` / `Nat`. -/
inductive PipelineState where
  | Idle : PipelineState
  | Initializing (progress : Nat) : PipelineState
  | Running (start_time : Option Nat) (frames_processed : Nat) : PipelineState
  | Paused (pause_time : Option Nat) : PipelineState
  | Completed (duration : Option Nat) (total_frames : Nat) : PipelineState
  | Error (error_msg : String) (recoverable : Bool) : PipelineState
deriving DecidableEq

/-- `PipelineState::can_transition_to`: the `matches!` table of
`src/engine/state.rs` lines 31-59.  The `(Error { recoverable: true, .. },
Idle)` arm matches exactly when the `recoverable` field is `true`. -/
def PipelineState.can_transition_to : PipelineState → PipelineState → Bool
  | .Idle, .Initializing _ => true
  | .Initializing _, .Running _ _ => true
  | .Initializing _, .Error _ _ => true
  | .Running _ _, .Paused _ => true
  | .Running _ _, .Completed _ _ => true
  | .Running _ _, .Error _ _ => true
  | .Paused _, .Running _ _ => true
  | .Paused _, .Completed _ _ => true
  | .Paused _, .Error _ _ => true
  | .Completed _ _, .Idle => true
  | .Error _ r, .Idle => r
  | _, _ => false

/-- `PipelineState::name`. -/
def PipelineState.name : PipelineState → String
  | .Idle => "Idle"
  | .Initializing _ => "Initializing"
  | .Running _ _ => "Running"
  | .Paused _ => "Paused"
  | .Completed _ _ => "Completed"
  | .Error _ _ => "Error"

/-- The error returned by `AsyncPipeline::transition_to` on a rejected
transition (`anyhow!("Invalid state transition: {} -> {}", ..)`). -/
inductive PipelineError where
  | invalidTransition (fromName toName : String)
deriving DecidableEq

/-- `AsyncPipeline::transition_to` (`src/engine/async_pipeline.rs` lines
99-109), modelled by explicit state passing: the second component is the
stored `self.state` after the call. -/
def transition_to (state new_state : PipelineState) :
    Except PipelineError Unit × PipelineState :=
  if state.can_transition_to new_state then (.ok (), new_state)
  else (.error (.invalidTransition state.name new_state.name), state)

/-- The transition table exactly as the specification states it (claim
side of the refinement; compared against `can_transition_to` from the
source). -/
def allowedTransitionSpec : PipelineState → PipelineState → Prop
  | .Idle, .Initializing _ => True
  | .Initializing _, .Running _ _ => True
  | .Initializing _, .Error _ _ => True
  | .Running _ _, .Paused _ => True
  | .Running _ _, .Completed _ _ => True
  | .Running _ _, .Error _ _ => True
  | .Paused _, .Running _ _ => True
  | .Paused _, .Completed _ _ => True
  | .Paused _, .Error _ _ => True
  | .Completed _ _, .Idle => True
  | .Error _ r, .Idle => r = true
  | _, _ => False

/-- C2: the pipeline state machine accepts exactly the transitions of the
spec table (Idle→Initializing; Initializing→{Running, Error};
Running→{Paused, Completed, Error}; Paused→{Running, Completed, Error};
Completed→Idle; Error{recoverable: true}→Idle); `transition_to` succeeds
iff the pair is in the table, and a rejected attempt returns an
invalid-transition error and leaves the stored state unchanged. -/
theorem c2_transition_table (s t : PipelineState) :
    (s.can_transition_to t = true ↔ allowedTransitionSpec s t)
    ∧ ((transition_to s t).1 = .ok () ↔ allowedTransitionSpec s t)
    ∧ (allowedTransitionSpec s t → (transition_to s t).2 = t)
    ∧ (¬ allowedTransitionSpec s t →
        (transition_to s t).1 = .error (.invalidTransition s.name t.name)
        ∧ (transition_to s t).2 = s) := by
  cases s <;> cases t <;>
    first
      | (simp [PipelineState.can_transition_to, allowedTransitionSpec,
          transition_to]; done)
      | (rename_i msg r
         cases r <;>
           simp [PipelineState.can_transition_to, allowedTransitionSpec,
             transition_to])

/-- Witness for `c2_transition_table`: the implications are exercised at
concrete states (accepted Idle→Initializing, rejected unrecoverable
Error→Idle). -/
theorem c2_transition_table_witness :
    (transition_to .Idle (.Initializing 0)).1 = .ok ()
    ∧ (transition_to (.Error "boom" false) .Idle).1 =
        .error (.invalidTransition "Error" "Idle")
    ∧ (transition_to (.Error "boom" false) .Idle).2 = .Error "boom" false := by
  have h1 := c2_transition_table .Idle (.Initializing 0)
  have h2 := c2_transition_table (.Error "boom" false) .Idle
  refine ⟨h1.2.1.mpr trivial, ?_, ?_⟩
  · exact (h2.2.2.2 (by simp [allowedTransitionSpec])).1
  · exact (h2.2.2.2 (by simp [allowedTransitionSpec])).2

/-! ## Channel mapper (`src/hal/channel_mapper.rs`, `src/hal/types.rs`) -/

/-- `ChannelRoute` from `src/hal/types.rs`. -/
inductive ChannelRoute where
  | Direct (ch : Nat)
  | Reorder (channels : List Nat)
  | Merge (channels : List Nat)
  | Duplicate (ch : Nat)
deriving DecidableEq

/-- `ChannelMapping` from `src/hal/types.rs`. -/
structure ChannelMapping where
  physical_channels : Nat
  virtual_channels : Nat
  routing : List ChannelRoute
deriving DecidableEq

/-- The distinct failure modes of `ChannelMapper::apply`.  The first bail
(wrong input length), `validate_channel`'s bail, the `Reorder` arity bail
and the final produced-length bail are returned `anyhow` errors; the
`Merge` arm instead calls `validate_channel(..).unwrap()`, a panic, which
is kept as the separate constructor `panicOutOfRange`. -/
inductive MapError where
  | lengthMismatch (expected got : Nat)
  | outOfRange (ch available : Nat)
  | badReorderArity (got : Nat)
  | panicOutOfRange (ch available : Nat)
  | arityMismatch (got expected : Nat)
deriving DecidableEq

/-- `ChannelMapper::validate_channel`. -/
def ChannelMapper.validate_channel (ch available : Nat) : Except MapError Unit :=
  if available ≤ ch then .error (.outOfRange ch available) else .ok ()

/-- One iteration of the routing loop of `ChannelMapper::apply`: the value
computed for a single `ChannelRoute`.  In the `Merge` arm the source
validates inside `.map(..)` with `.unwrap()`, so the first out-of-range
listed channel panics; otherwise the channels are summed and divided by
the count. -/
def routeSample (physical : List ℚ) : ChannelRoute → Except MapError ℚ
  | .Direct ch =>
    match ChannelMapper.validate_channel ch physical.length with
    | .error e => .error e
    | .ok _ => .ok (physical.getD ch 0)
  | .Reorder channels =>
    if channels.length ≠ 1 then .error (.badReorderArity channels.length)
    else
      match ChannelMapper.validate_channel (channels.getD 0 0) physical.length with
      | .error e => .error e
      | .ok _ => .ok (physical.getD (channels.getD 0 0) 0)
  | .Merge channels =>
    match channels.find? (fun ch => decide (physical.length ≤ ch)) with
    | some ch => .error (.panicOutOfRange ch physical.length)
    | none =>
      .ok ((channels.map (fun ch => physical.getD ch 0)).sum / (channels.length : ℚ))
  | .Duplicate ch =>
    match ChannelMapper.validate_channel ch physical.length with
    | .error e => .error e
    | .ok _ => .ok (physical.getD ch 0)

/-- The `for route in &mapping.routing` loop of `ChannelMapper::apply`:
routes are processed in order and the first failure is returned. -/
def applyRoutes (physical : List ℚ) : List ChannelRoute → Except MapError (List ℚ)
  | [] => .ok []
  | r :: rs =>
    match routeSample physical r with
    | .error e => .error e
    | .ok v =>
      match applyRoutes physical rs with
      | .error e => .error e
      | .ok vs => .ok (v :: vs)

/-- `ChannelMapper::apply` (`src/hal/channel_mapper.rs` lines 8-61). -/
def ChannelMapper.apply (mapping : ChannelMapping) (physical : List ℚ) :
    Except MapError (List ℚ) :=
  if physical.length ≠ mapping.physical_channels then
    .error (.lengthMismatch mapping.physical_channels physical.length)
  else
    match applyRoutes physical mapping.routing with
    | .error e => .error e
    | .ok virtual_samples =>
      if virtual_samples.length ≠ mapping.virtual_channels then
        .error (.arityMismatch virtual_samples.length mapping.virtual_channels)
      else .ok virtual_samples

/-- Claim-side description of when a single routing rule is faulty and
which failure it produces, following the spec's words: out-of-range
referenced indices, and a `Reorder` list whose length is not 1.  (For a
`Merge` rule the code's failure is a panic, recorded here as
`panicOutOfRange`.) -/
def ruleFaultSpec (physicalCount : Nat) : ChannelRoute → Option MapError
  | .Direct ch =>
    if physicalCount ≤ ch then some (.outOfRange ch physicalCount) else none
  | .Reorder channels =>
    if channels.length ≠ 1 then some (.badReorderArity channels.length)
    else if physicalCount ≤ channels.getD 0 0 then
      some (.outOfRange (channels.getD 0 0) physicalCount)
    else none
  | .Merge channels =>
    match channels.find? (fun ch => decide (physicalCount ≤ ch)) with
    | some ch => some (.panicOutOfRange ch physicalCount)
    | none => none
  | .Duplicate ch =>
    if physicalCount ≤ ch then some (.outOfRange ch physicalCount) else none

/-- The value a fault-free rule produces (the `.ok` payload of
`routeSample`). -/
def routeValue (physical : List ℚ) (r : ChannelRoute) : ℚ :=
  match routeSample physical r with
  | .ok v => v
  | .error _ => 0

theorem routeSample_error_of_fault (physical : List ℚ) (r : ChannelRoute) (e : MapError)
    (h : ruleFaultSpec physical.length r = some e) :
    routeSample physical r = .error e := by
  cases r with
  | Direct ch =>
    by_cases hc : physical.length ≤ ch <;>
      simp [ruleFaultSpec, routeSample, ChannelMapper.validate_channel, hc] at h ⊢ <;>
      simp [h]
  | Reorder channels =>
    by_cases h1 : channels.length = 1
    · obtain ⟨c, rfl⟩ := List.length_eq_one.mp h1
      by_cases hc : physical.length ≤ c <;>
        simp [ruleFaultSpec, routeSample, ChannelMapper.validate_channel, hc]
          at h ⊢ <;>
        simp [h]
    · simp [ruleFaultSpec, routeSample, h1] at h ⊢
      simp [h]
  | Merge channels =>
    cases hf : channels.find? (fun ch => decide (physical.length ≤ ch)) <;>
      simp [ruleFaultSpec, routeSample, hf] at h ⊢ <;> simp [h]
  | Duplicate ch =>
    by_cases hc : physical.length ≤ ch <;>
      simp [ruleFaultSpec, routeSample, ChannelMapper.validate_channel, hc] at h ⊢ <;>
      simp [h]

theorem routeSample_ok_of_no_fault (physical : List ℚ) (r : ChannelRoute)
    (h : ruleFaultSpec physical.length r = none) :
    routeSample physical r = .ok (routeValue physical r) := by
  cases r with
  | Direct ch =>
    by_cases hc : physical.length ≤ ch <;>
      simp [ruleFaultSpec, routeSample, routeValue, ChannelMapper.validate_channel, hc]
        at h ⊢
  | Reorder channels =>
    by_cases h1 : channels.length = 1
    · obtain ⟨c, rfl⟩ := List.length_eq_one.mp h1
      by_cases hc : physical.length ≤ c <;>
        simp [ruleFaultSpec, routeSample, routeValue, ChannelMapper.validate_channel,
          hc] at h ⊢
    · simp [ruleFaultSpec, h1] at h
  | Merge channels =>
    cases hf : channels.find? (fun ch => decide (physical.length ≤ ch)) <;>
      simp [ruleFaultSpec, routeSample, routeValue, hf] at h ⊢
  | Duplicate ch =>
    by_cases hc : physical.length ≤ ch <;>
      simp [ruleFaultSpec, routeSample, routeValue, ChannelMapper.validate_channel, hc]
        at h ⊢

theorem applyRoutes_ok_of_no_fault (physical : List ℚ) (routing : List ChannelRoute)
    (h : ∀ r ∈ routing, ruleFaultSpec physical.length r = none) :
    applyRoutes physical routing = .ok (routing.map (routeValue physical)) := by
  induction routing with
  | nil => rfl
  | cons r rs ih =>
    have hr := routeSample_ok_of_no_fault physical r (h r (List.mem_cons_self r rs))
    have hrs := ih (fun r' hr' => h r' (List.mem_cons_of_mem r hr'))
    simp [applyRoutes, hr, hrs]

theorem applyRoutes_error_of_first_fault (physical : List ℚ)
    (pre : List ChannelRoute) (r : ChannelRoute) (post : List ChannelRoute)
    (hpre : ∀ r' ∈ pre, ruleFaultSpec physical.length r' = none)
    (e : MapError) (he : ruleFaultSpec physical.length r = some e) :
    applyRoutes physical (pre ++ r :: post) = .error e := by
  induction pre with
  | nil =>
    have hr := routeSample_error_of_fault physical r e he
    simp [applyRoutes, hr]
  | cons p ps ih =>
    have hp := routeSample_ok_of_no_fault physical p (hpre p (List.mem_cons_self p ps))
    have := ih (fun r' h' => hpre r' (List.mem_cons_of_mem p h'))
    simp only [List.cons_append, applyRoutes, hp, List.append_eq, this]

theorem applyRoutes_ok_inv (physical : List ℚ) (routing : List ChannelRoute)
    (vs : List ℚ) (h : applyRoutes physical routing = .ok vs) :
    (∀ r ∈ routing, ruleFaultSpec physical.length r = none)
    ∧ vs = routing.map (routeValue physical) := by
  induction routing generalizing vs with
  | nil =>
    simp only [applyRoutes] at h
    cases h
    simp
  | cons r rs ih =>
    simp only [applyRoutes] at h
    cases hr : routeSample physical r with
    | error e => rw [hr] at h; cases h
    | ok v =>
      rw [hr] at h
      cases hrs : applyRoutes physical rs with
      | error e => rw [hrs] at h; cases h
      | ok ws =>
        rw [hrs] at h
        cases h
        obtain ⟨h1, h2⟩ := ih ws hrs
        have hfault : ruleFaultSpec physical.length r = none := by
          cases hf : ruleFaultSpec physical.length r with
          | none => rfl
          | some e =>
            have := routeSample_error_of_fault physical r e hf
            rw [this] at hr
            cases hr
        refine ⟨?_, ?_⟩
        · intro r' hr'
          rcases List.mem_cons.mp hr' with h' | h'
          · subst h'; exact hfault
          · exact h1 r' h'
        · have hv : routeValue physical r = v := by
            have := routeSample_ok_of_no_fault physical r hfault
            rw [this] at hr
            cases hr
            rfl
          simp [h2, hv]

/-- C3 (amended): on an input slice of the declared physical length,
`apply` reports the failure of the first faulty routing rule —
`OutOfRange` for `Direct`, single-element `Reorder` and `Duplicate` rules
referencing an index ≥ `physical_channels`, `BadReorderArity` for a
`Reorder` rule whose list length is not 1, but a *panic* (not a returned
`OutOfRange` error) for an out-of-range index listed in a `Merge` rule;
when every rule is fault-free and the produced count differs from
`virtual_channels` it fails with `ArityMismatch`; and an input slice of
the wrong length fails with a length-mismatch error. -/
theorem c3_apply_failure_modes (mapping : ChannelMapping) (x : List ℚ)
    (hlen : x.length = mapping.physical_channels) :
    (∀ pre r post, mapping.routing = pre ++ r :: post →
        (∀ r' ∈ pre, ruleFaultSpec mapping.physical_channels r' = none) →
        ∀ e, ruleFaultSpec mapping.physical_channels r = some e →
        ChannelMapper.apply mapping x = .error e)
    ∧ ((∀ r ∈ mapping.routing, ruleFaultSpec mapping.physical_channels r = none) →
        mapping.routing.length ≠ mapping.virtual_channels →
        ChannelMapper.apply mapping x =
          .error (.arityMismatch mapping.routing.length mapping.virtual_channels))
    ∧ (∀ y : List ℚ, y.length ≠ mapping.physical_channels →
        ChannelMapper.apply mapping y =
          .error (.lengthMismatch mapping.physical_channels y.length)) := by
  refine ⟨?_, ?_, ?_⟩
  · intro pre r post hsplit hpre e he
    rw [← hlen] at hpre he
    have := applyRoutes_error_of_first_fault x pre r post hpre e he
    simp [ChannelMapper.apply, hlen, hsplit, this]
  · intro hok hne
    rw [← hlen] at hok
    have := applyRoutes_ok_of_no_fault x mapping.routing hok
    simp [ChannelMapper.apply, hlen, this, hne]
  · intro y hy
    simp [ChannelMapper.apply, hy]

/-- Witness for `c3_apply_failure_modes`: a mapping whose first rule is a
two-element `Reorder` fails with the arity error, and a short input slice
fails with the length error. -/
theorem c3_apply_failure_modes_witness :
    ChannelMapper.apply ⟨2, 1, [.Reorder [0, 1]]⟩ [0, 0] =
      .error (.badReorderArity 2)
    ∧ ChannelMapper.apply ⟨2, 1, [.Reorder [0, 1]]⟩ [0] =
      .error (.lengthMismatch 2 1) := by
  have h := c3_apply_failure_modes ⟨2, 1, [.Reorder [0, 1]]⟩ [0, 0] (by rfl)
  constructor
  · exact h.1 [] (.Reorder [0, 1]) [] rfl (by simp) (.badReorderArity 2) (by rfl)
  · exact h.2.2 [0] (by decide)

/-- C3 counterexample: an out-of-range index in a `Merge` rule makes
`apply` panic (via `validate_channel(..).unwrap()`), it does not return
the `OutOfRange` error the claim states. -/
theorem c3_counterexample :
    ChannelMapper.apply ⟨1, 1, [.Merge [5]]⟩ [0] = .error (.panicOutOfRange 5 1)
    ∧ ChannelMapper.apply ⟨1, 1, [.Merge [5]]⟩ [0] ≠ .error (.outOfRange 5 1) := by
  constructor
  · rfl
  · intro h
    rw [show ChannelMapper.apply ⟨1, 1, [.Merge [5]]⟩ [0]
        = .error (.panicOutOfRange 5 1) from rfl] at h
    simp at h

/-- C6: on any physical input of the declared length on which `apply`
succeeds, the output has `virtual_channels` entries, every slot produced
by a `Merge(L)` rule is the arithmetic mean of the listed physical
samples, and in particular `Merge([0,1,2,3])` over `[1,3,5,7]` yields
`[4]`. -/
theorem c6_apply_merge_mean (mapping : ChannelMapping) (x out : List ℚ)
    (hlen : x.length = mapping.physical_channels)
    (hok : ChannelMapper.apply mapping x = .ok out) :
    out.length = mapping.virtual_channels
    ∧ (∀ k L, k < mapping.routing.length →
        mapping.routing.getD k (.Direct 0) = .Merge L →
        out.getD k 0 = (L.map (fun i => x.getD i 0)).sum / (L.length : ℚ))
    ∧ ChannelMapper.apply ⟨4, 1, [.Merge [0, 1, 2, 3]]⟩ [1, 3, 5, 7] = .ok [4] := by
  have happly := hok
  simp only [ChannelMapper.apply] at happly
  rw [if_neg (not_not_intro hlen)] at happly
  cases hroutes : applyRoutes x mapping.routing with
  | error e => rw [hroutes] at happly; cases happly
  | ok vs =>
    rw [hroutes] at happly
    dsimp only at happly
    obtain ⟨hfaults, hvs⟩ := applyRoutes_ok_inv x mapping.routing vs hroutes
    by_cases hne : vs.length = mapping.virtual_channels
    · rw [if_neg (not_not_intro hne)] at happly
      cases happly
      refine ⟨by rw [hvs] at hne ⊢; exact hne, ?_, by
        simp [ChannelMapper.apply, applyRoutes, routeSample,
          ChannelMapper.validate_channel, List.find?]
        norm_num⟩
      intro k L hk hkL
      rw [hvs]
      have hmem : mapping.routing.getD k (.Direct 0) ∈ mapping.routing := by
        rw [List.getD_eq_getElem _ _ hk]
        exact List.getElem_mem hk
      have hfault := hfaults _ hmem
      rw [hkL] at hfault
      have hfind : L.find? (fun ch => decide (x.length ≤ ch)) = none := by
        rw [hlen]
        cases hf : L.find? (fun ch => decide (mapping.physical_channels ≤ ch)) with
        | none => rfl
        | some c =>
          simp only [ruleFaultSpec, hlen, hf] at hfault
          exact Option.noConfusion hfault
      have hval : routeValue x (.Merge L)
          = (L.map (fun i => x.getD i 0)).sum / (L.length : ℚ) := by
        simp [routeValue, routeSample, hfind]
      have : (mapping.routing.map (routeValue x)).getD k 0
          = routeValue x (mapping.routing.getD k (.Direct 0)) := by
        rw [List.getD_eq_getElem _ _ (by simpa using hk), List.getElem_map,
          List.getD_eq_getElem _ _ hk]
      rw [this, hkL, hval]
    · rw [if_pos hne] at happly
      cases happly

/-- Witness for `c6_apply_merge_mean`: the four-channel merge example. -/
theorem c6_apply_merge_mean_witness :
    ChannelMapper.apply ⟨4, 1, [.Merge [0, 1, 2, 3]]⟩ [1, 3, 5, 7] = .ok [4]
    ∧ ([4] : List ℚ).length = 1 := by
  have h := c6_apply_merge_mean ⟨4, 1, [.Merge [0, 1, 2, 3]]⟩ [1, 3, 5, 7] [4]
    (by rfl) (by
      simp [ChannelMapper.apply, applyRoutes, routeSample,
        ChannelMapper.validate_channel, List.find?]
      norm_num)
  exact ⟨h.2.2, h.1⟩

/-! ## Data frames and format conversion (`src/core`,
`src/hal/format_converter.rs`, `src/hal/types.rs`)

`f64` samples are exact rationals; see the header note.  The payload
`HashMap<String, Arc<Vec<f64>>>` is an association list with distinct
keys whose order is the map's iteration order. -/

/-- The ten decimal digit characters. -/
def digitChar : Nat → Char
  | 0 => '0' | 1 => '1' | 2 => '2' | 3 => '3' | 4 => '4'
  | 5 => '5' | 6 => '6' | 7 => '7' | 8 => '8' | 9 => '9'
  | _ => '*'

/-- Little-endian decimal digits with explicit fuel (structural
recursion, so that concrete keys evaluate by kernel reduction). -/
def decDigitsAux (fuel n : Nat) : List Nat :=
  match fuel, n with
  | _, 0 => []
  | 0, _ => []
  | fuel + 1, n => n % 10 :: decDigitsAux fuel (n / 10)

/-- Decimal digits of `n`, most significant first (`0` renders as the
single digit `0`). -/
def decimalDigits (n : Nat) : List Nat :=
  if n = 0 then [0] else (decDigitsAux n n).reverse

theorem decDigitsAux_eq_digits : ∀ fuel n, n ≤ fuel → decDigitsAux fuel n = Nat.digits 10 n := by
  intro fuel
  induction fuel with
  | zero =>
    intro n hn
    interval_cases n
    simp [decDigitsAux]
  | succ f ih =>
    intro n hn
    match n with
    | 0 => simp [decDigitsAux]
    | m + 1 =>
      have hdiv : (m + 1) / 10 ≤ f := by
        have := Nat.div_lt_self (Nat.succ_pos m) (by norm_num : 1 < 10)
        omega
      rw [decDigitsAux, ih ((m + 1) / 10) hdiv,
        Nat.digits_def' (by norm_num : (1 : ℕ) < 10) (Nat.succ_pos m)]
      omega

theorem decimalDigits_eq (n : Nat) :
    decimalDigits n = if n = 0 then [0] else (Nat.digits 10 n).reverse := by
  unfold decimalDigits
  split
  · rfl
  · rw [decDigitsAux_eq_digits n n le_rfl]

/-- Decimal rendering of a natural number, as Rust's `format!` emits it. -/
def natDecimal (n : Nat) : String :=
  ⟨(decimalDigits n).map digitChar⟩

/-- The payload key `format!("ch..", ch)` built by the format converter. -/
def chKey (ch : Nat) : String := "ch" ++ natDecimal ch

theorem decimalDigits_injective : Function.Injective decimalDigits := by
  intro a b h
  rw [decimalDigits_eq, decimalDigits_eq] at h
  by_cases ha : a = 0
  · by_cases hb : b = 0
    · rw [ha, hb]
    · rw [if_pos ha, if_neg hb] at h
      have hb' : Nat.digits 10 b = [0] := by
        have := congrArg List.reverse h
        simpa using this.symm
      have hofd := Nat.ofDigits_digits 10 b
      rw [hb'] at hofd
      norm_num [Nat.ofDigits] at hofd
      omega
  · by_cases hb : b = 0
    · rw [if_neg ha, if_pos hb] at h
      have ha' : Nat.digits 10 a = [0] := by
        have := congrArg List.reverse h
        simpa using this
      have hofd := Nat.ofDigits_digits 10 a
      rw [ha'] at hofd
      norm_num [Nat.ofDigits] at hofd
      omega
    · rw [if_neg ha, if_neg hb] at h
      exact Nat.digits.injective 10 (List.reverse_injective h)

theorem decimalDigits_lt (n : Nat) : ∀ d ∈ decimalDigits n, d < 10 := by
  intro d hd
  rw [decimalDigits_eq] at hd
  split at hd
  · simp at hd; omega
  · rw [List.mem_reverse] at hd
    exact Nat.digits_lt_base (by norm_num) hd

theorem digitChar_inj : ∀ a < 10, ∀ b < 10, digitChar a = digitChar b → a = b := by
  decide

theorem map_digitChar_inj : ∀ xs ys : List Nat, (∀ x ∈ xs, x < 10) →
    (∀ y ∈ ys, y < 10) → xs.map digitChar = ys.map digitChar → xs = ys := by
  intro xs
  induction xs with
  | nil => intro ys _ _ h; cases ys with
    | nil => rfl
    | cons y ys => simp at h
  | cons x xs ih =>
    intro ys hx hy h
    cases ys with
    | nil => simp at h
    | cons y ys =>
      simp only [List.map_cons, List.cons.injEq] at h
      have hxy := digitChar_inj x (hx x (List.mem_cons_self x xs)) y
        (hy y (List.mem_cons_self y ys)) h.1
      have := ih ys (fun a ha => hx a (List.mem_cons_of_mem x ha))
        (fun a ha => hy a (List.mem_cons_of_mem y ha)) h.2
      rw [hxy, this]

theorem natDecimal_injective : Function.Injective natDecimal := by
  intro a b h
  apply decimalDigits_injective
  have hdata := congrArg String.data h
  exact map_digitChar_inj _ _ (decimalDigits_lt a) (decimalDigits_lt b) hdata

theorem chKey_injective : Function.Injective chKey := by
  intro a b h
  apply natDecimal_injective
  have hdata := congrArg String.data h
  simp only [chKey, String.data_append] at hdata
  exact String.ext (List.append_cancel_left hdata)

/-- `SampleFormat` from `src/hal/types.rs`. -/
inductive SampleFormat where
  | I16
  | I24
  | I32
  | F32
  | F64
  | U8
deriving DecidableEq

/-- `SampleData` from `src/hal/types.rs`.  `I24` carries raw bytes
(three per sample); `F32`/`F64` carry rational sample values; the
machine-integer element ranges the Rust vector types enforce are the
side condition `SampleData.wf`. -/
inductive SampleData where
  | I16 (v : List Int)
  | I24 (v : List Nat)
  | I32 (v : List Int)
  | F32 (v : List ℚ)
  | F64 (v : List ℚ)
  | U8 (v : List Nat)
  | Bytes (v : List Nat)
deriving DecidableEq

/-- Element ranges of the Rust vector element types (`i16`, `u8`, `i32`). -/
def SampleData.wf : SampleData → Prop
  | .I16 v => ∀ x ∈ v, -32768 ≤ x ∧ x ≤ 32767
  | .I24 v => ∀ x ∈ v, x < 256
  | .I32 v => ∀ x ∈ v, -2147483648 ≤ x ∧ x ≤ 2147483647
  | .F32 _ => True
  | .F64 _ => True
  | .U8 v => ∀ x ∈ v, x < 256
  | .Bytes v => ∀ x ∈ v, x < 256

/-- The native format of a `SampleData` payload (`Bytes` has none). -/
def SampleData.formatOf : SampleData → Option SampleFormat
  | .I16 _ => some .I16
  | .I24 _ => some .I24
  | .I32 _ => some .I32
  | .F32 _ => some .F32
  | .F64 _ => some .F64
  | .U8 _ => some .U8
  | .Bytes _ => none

/-- `PacketBuffer` from `src/hal/types.rs` (timestamp in nanoseconds). -/
structure PacketBuffer where
  data : SampleData
  sample_rate : Nat
  num_channels : Nat
  timestamp : Option Nat
deriving DecidableEq

/-- `DataFrame` from `src/core`: payload maps channel names to sample
vectors; metadata maps strings to strings. -/
structure DataFrame where
  timestamp : Nat
  sequence_id : Nat
  payload : List (String × List ℚ)
  metadata : List (String × String)
deriving DecidableEq

/-- Failure modes of the format converter.  `bytesUnsupported`,
`noChannels` and `missingChannel` are returned `anyhow` errors;
`panicDivByZero` models Rust's integer-division-by-zero panic and
`panicIndex` the out-of-bounds `channel_data[frame_idx]` panic. -/
inductive ConvError where
  | bytesUnsupported
  | panicDivByZero
  | noChannels
  | missingChannel (ch : Nat)
  | panicIndex (ch frame_idx : Nat)
deriving DecidableEq

/-- The `total_samples` match of `packet_to_frame` (`Bytes` bails). -/
def totalSamples : SampleData → Option Nat
  | .I16 v => some v.length
  | .I24 v => some (v.length / 3)
  | .I32 v => some v.length
  | .F32 v => some v.length
  | .F64 v => some v.length
  | .U8 v => some v.length
  | .Bytes _ => none

/-- The `samples_per_packet` match inside `PacketBuffer::derive_timestamp`;
every non-`Bytes` arm divides a length by `num_channels`, which panics when
`num_channels` is zero.  The `Bytes` arm is the constant 0. -/
def samplesPerPacket (d : SampleData) (num_channels : Nat) : Except ConvError Nat :=
  match d with
  | .Bytes _ => .ok 0
  | .I24 v =>
    if num_channels = 0 then .error .panicDivByZero
    else .ok (v.length / 3 / num_channels)
  | d =>
    if num_channels = 0 then .error .panicDivByZero
    else
      match totalSamples d with
      | some t => .ok (t / num_channels)
      | none => .ok 0

/-- `PacketBuffer::derive_timestamp` (`src/hal/types.rs` lines 154-171).
`u64` multiplication overflow is not modelled; no claim concerns the
numeric timestamp value.  Division by a zero `sample_rate` panics. -/
def PacketBuffer.derive_timestamp (p : PacketBuffer) (packet_index : Nat) :
    Except ConvError Nat :=
  match p.timestamp with
  | some ts => .ok ts
  | none =>
    match samplesPerPacket p.data p.num_channels with
    | .error e => .error e
    | .ok spp =>
      if p.sample_rate = 0 then .error .panicDivByZero
      else .ok (packet_index * spp * 1000000000 / p.sample_rate)

/-- Sign extension of the high byte of a 24-bit sample
(`v[byte_index + 2] as i8 as i32`). -/
def signExtendByte (b : Nat) : Int :=
  if 128 ≤ b then (b : Int) - 256 else (b : Int)

/-- `(b2 << 16) | (b1 << 8) | b0` with `b2` sign-extended; for bytes below
256 the OR of the disjoint bit ranges equals this sum. -/
def decode24 (b0 b1 b2 : Nat) : Int :=
  signExtendByte b2 * 65536 + (b1 : Int) * 256 + (b0 : Int)

/-- The per-sample decoding `match` of `packet_to_frame` at a given
interleaved sample index.  All indices used by `packet_to_frame` are in
bounds, so `getD`'s default is never consulted. -/
def decodeAt (d : SampleData) (index : Nat) : ℚ :=
  match d with
  | .I16 v => (v.getD index 0 : ℚ) / 32768
  | .I24 v =>
    (decode24 (v.getD (index * 3) 0) (v.getD (index * 3 + 1) 0)
        (v.getD (index * 3 + 2) 0) : ℚ) / 8388608
  | .I32 v => (v.getD index 0 : ℚ) / 2147483648
  | .F32 v => v.getD index 0
  | .F64 v => v.getD index 0
  | .U8 v => ((v.getD index 0 : ℚ) - 128) / 128
  | .Bytes _ => 0

/-- `packet_to_frame` (`src/hal/format_converter.rs` lines 8-66).  The
payload lists channels in insertion order `ch0, ch1, ...`. -/
def packet_to_frame (packet : PacketBuffer) (sequence_id : Nat) :
    Except ConvError DataFrame :=
  match packet.derive_timestamp sequence_id with
  | .error e => .error e
  | .ok timestamp =>
    match totalSamples packet.data with
    | none => .error .bytesUnsupported
    | some total_samples =>
      if packet.num_channels = 0 then .error .panicDivByZero
      else
        .ok ⟨timestamp, sequence_id,
          (List.range packet.num_channels).map (fun ch =>
            (chKey ch,
              (List.range (total_samples / packet.num_channels)).map (fun frame =>
                decodeAt packet.data (frame * packet.num_channels + ch)))),
          [("sample_rate", natDecimal packet.sample_rate)]⟩

/-- Rust `f64::clamp`. -/
def rclamp (q lo hi : ℚ) : ℚ := min (max q lo) hi

/-- Rust's float-to-integer `as` cast truncates toward zero (the
saturation it would also perform is made irrelevant by the preceding
`clamp`). -/
def ratTrunc (q : ℚ) : Int := if q < 0 then -(⌊-q⌋) else ⌊q⌋

/-- `(f64_value * 32768.0).clamp(-32768.0, 32767.0) as i16`. -/
def encodeI16 (q : ℚ) : Int := ratTrunc (rclamp (q * 32768) (-32768) 32767)

/-- `(f64_value * 8388608.0).clamp(-8388608.0, 8388607.0) as i32`. -/
def encodeI24 (q : ℚ) : Int := ratTrunc (rclamp (q * 8388608) (-8388608) 8388607)

/-- The three little-endian bytes pushed for a 24-bit sample:
`i & 0xFF`, `(i >> 8) & 0xFF`, `(i >> 16) & 0xFF`; the arithmetic right
shift is floor division, which for a positive divisor coincides with
Euclidean division, and the masks are Euclidean remainders. -/
def i24Bytes (i : Int) : List Nat :=
  [(i % 256).toNat, (i / 256 % 256).toNat, (i / 65536 % 256).toNat]

/-- `(f64_value * 2147483648.0).clamp(-2147483648.0, 2147483647.0) as i32`. -/
def encodeI32 (q : ℚ) : Int := ratTrunc (rclamp (q * 2147483648) (-2147483648) 2147483647)

/-- `((f64_value * 128.0) + 128.0).clamp(0.0, 255.0) as u8`. -/
def encodeU8 (q : ℚ) : Nat := (ratTrunc (rclamp (q * 128 + 128) 0 255)).toNat

/-- `channel_data[frame_idx] as f32`: the f64→f32 rounding is modelled as
the identity (no claim concerns `F32` precision). -/
def encodeF32 (q : ℚ) : ℚ := q

/-- One payload access of the `frame_to_packet` loops: the
`frame.payload.get(..).ok_or(..)?` lookup followed by the
`channel_data[frame_idx]` index (a panic when out of bounds). -/
def lookupSample (payload : List (String × List ℚ)) (ch frame_idx : Nat) :
    Except ConvError ℚ :=
  match payload.lookup (chKey ch) with
  | none => .error (.missingChannel ch)
  | some channel_data =>
    if frame_idx < channel_data.length then .ok (channel_data.getD frame_idx 0)
    else .error (.panicIndex ch frame_idx)

/-- The inner `for ch in 0..num_channels` loop of `frame_to_packet` at a
fixed `frame_idx`. -/
def gatherRow (payload : List (String × List ℚ)) (frame_idx : Nat) :
    List Nat → Except ConvError (List ℚ)
  | [] => .ok []
  | ch :: chs =>
    match lookupSample payload ch frame_idx with
    | .error e => .error e
    | .ok v =>
      match gatherRow payload frame_idx chs with
      | .error e => .error e
      | .ok vs => .ok (v :: vs)

/-- The outer `for frame_idx in 0..samples_per_channel` loop of
`frame_to_packet`: interleaved sample values in traversal order, stopping
at the first failure exactly as the source loops do. -/
def gatherFrames (payload : List (String × List ℚ)) (chs : List Nat) :
    List Nat → Except ConvError (List ℚ)
  | [] => .ok []
  | f :: fs =>
    match gatherRow payload f chs with
    | .error e => .error e
    | .ok row =>
      match gatherFrames payload chs fs with
      | .error e => .error e
      | .ok rest => .ok (row ++ rest)

/-- The per-format encoding of the gathered interleaved values: each
match arm of `frame_to_packet` pushes one encoded value (three bytes for
`I24`) per gathered sample, in the same order.  Encoding is total, so
performing it after the (fallible) gathering is observationally the same
as the source's interleaved loop. -/
def encodeData (format : SampleFormat) (vals : List ℚ) : SampleData :=
  match format with
  | .I16 => .I16 (vals.map encodeI16)
  | .I24 => .I24 (vals.flatMap (fun q => i24Bytes (encodeI24 q)))
  | .I32 => .I32 (vals.map encodeI32)
  | .F32 => .F32 (vals.map encodeF32)
  | .F64 => .F64 vals
  | .U8 => .U8 (vals.map encodeU8)

/-- `frame_to_packet` (`src/hal/format_converter.rs` lines 69-172).
`num_channels` is the payload entry count; `samples_per_channel` is the
length of the first payload entry's vector (the map's
`values().next()`). -/
def frame_to_packet (frame : DataFrame) (format : SampleFormat)
    (sample_rate : Nat) : Except ConvError PacketBuffer :=
  if frame.payload.length = 0 then .error .noChannels
  else
    match gatherFrames frame.payload (List.range frame.payload.length)
        (List.range (frame.payload.headD ("", [])).2.length) with
    | .error e => .error e
    | .ok vals =>
      .ok ⟨encodeData format vals, sample_rate, frame.payload.length,
        some frame.timestamp⟩

/-- Decoding a byte stream as consecutive 24-bit little-endian samples
(three bytes each, trailing partial sample dropped), matching the
`byte_index = index * 3` accesses of `packet_to_frame`. -/
def samples24 : List Nat → List Int
  | b0 :: b1 :: b2 :: rest => decode24 b0 b1 b2 :: samples24 rest
  | _ => []

/-- The integer sample values a packet's data carries in format `F`
(`none` for float or raw-byte data). -/
def intSamples : SampleFormat → SampleData → Option (List Int)
  | .I16, .I16 v => some v
  | .I24, .I24 v => some (samples24 v)
  | .I32, .I32 v => some v
  | .U8, .U8 v => some (v.map Int.ofNat)
  | _, _ => none

theorem ratTrunc_intCast (v : Int) : ratTrunc (v : ℚ) = v := by
  unfold ratTrunc
  split
  · rw [← Int.cast_neg, Int.floor_intCast, neg_neg]
  · exact Int.floor_intCast v

theorem rclamp_of_mem (q lo hi : ℚ) (h1 : lo ≤ q) (h2 : q ≤ hi) :
    rclamp q lo hi = q := by
  unfold rclamp
  rw [max_eq_left h1, min_eq_left h2]

theorem encodeI16_decode (v : Int) (h1 : -32768 ≤ v) (h2 : v ≤ 32767) :
    encodeI16 ((v : ℚ) / 32768) = v := by
  unfold encodeI16
  rw [div_mul_cancel₀ _ (by norm_num : (32768 : ℚ) ≠ 0)]
  rw [rclamp_of_mem _ _ _ (by exact_mod_cast h1) (by exact_mod_cast h2)]
  exact ratTrunc_intCast v

theorem encodeI32_decode (v : Int) (h1 : -2147483648 ≤ v) (h2 : v ≤ 2147483647) :
    encodeI32 ((v : ℚ) / 2147483648) = v := by
  unfold encodeI32
  rw [div_mul_cancel₀ _ (by norm_num : (2147483648 : ℚ) ≠ 0)]
  rw [rclamp_of_mem _ _ _ (by exact_mod_cast h1) (by exact_mod_cast h2)]
  exact ratTrunc_intCast v

theorem encodeU8_decode (v : Nat) (h : v < 256) :
    encodeU8 (((v : ℚ) - 128) / 128) = v := by
  unfold encodeU8
  rw [div_mul_cancel₀ _ (by norm_num : (128 : ℚ) ≠ 0), sub_add_cancel]
  have hv : ((v : ℚ)) = ((v : Int) : ℚ) := by push_cast; ring
  rw [rclamp_of_mem _ _ _ (by positivity) (by exact_mod_cast Nat.le_of_lt_succ h),
    hv, ratTrunc_intCast]
  simp

theorem decode24_bounds (b0 b1 b2 : Nat) (h0 : b0 < 256) (h1 : b1 < 256)
    (h2 : b2 < 256) :
    -8388608 ≤ decode24 b0 b1 b2 ∧ decode24 b0 b1 b2 ≤ 8388607 := by
  unfold decode24 signExtendByte
  split <;> omega

theorem i24Bytes_decode24 (b0 b1 b2 : Nat) (h0 : b0 < 256) (h1 : b1 < 256)
    (h2 : b2 < 256) :
    i24Bytes (decode24 b0 b1 b2) = [b0, b1, b2] := by
  unfold i24Bytes decode24 signExtendByte
  split <;> simp only [List.cons.injEq, and_true] <;>
    refine ⟨?_, ?_, ?_⟩ <;> omega

theorem encodeI24_decode (b0 b1 b2 : Nat) (h0 : b0 < 256) (h1 : b1 < 256)
    (h2 : b2 < 256) :
    i24Bytes (encodeI24 ((decode24 b0 b1 b2 : ℚ) / 8388608)) = [b0, b1, b2] := by
  obtain ⟨hlo, hhi⟩ := decode24_bounds b0 b1 b2 h0 h1 h2
  unfold encodeI24
  rw [div_mul_cancel₀ _ (by norm_num : (8388608 : ℚ) ≠ 0)]
  rw [rclamp_of_mem _ _ _ (by exact_mod_cast hlo) (by exact_mod_cast hhi)]
  rw [ratTrunc_intCast]
  exact i24Bytes_decode24 b0 b1 b2 h0 h1 h2

/-- The sample a payload holds for channel `ch` at frame `f` (used to
state the gather lemmas). -/
def payloadAt (payload : List (String × List ℚ)) (ch f : Nat) : ℚ :=
  match payload.lookup (chKey ch) with
  | some cd => cd.getD f 0
  | none => 0

theorem lookup_map_chKey (g : Nat → List ℚ) :
    ∀ (ks : List Nat) (c : Nat), c ∈ ks →
    (ks.map (fun ch => (chKey ch, g ch))).lookup (chKey c) = some (g c) := by
  intro ks
  induction ks with
  | nil => intro c hc; cases hc
  | cons k ks ih =>
    intro c hc
    by_cases hck : c = k
    · subst hck
      simp [List.lookup]
    · have hkey : (chKey c == chKey k) = false := by
        simp only [beq_eq_false_iff_ne, ne_eq]
        intro h
        exact hck (chKey_injective h)
      have hc' : c ∈ ks := by
        rcases List.mem_cons.mp hc with h | h
        · exact absurd h hck
        · exact h
      rw [List.map_cons, List.lookup_cons, hkey]
      exact ih c hc'

theorem gatherRow_ok (payload : List (String × List ℚ)) (f : Nat) (chs : List Nat)
    (h : ∀ ch ∈ chs, ∃ cd, payload.lookup (chKey ch) = some cd ∧ f < cd.length) :
    gatherRow payload f chs = .ok (chs.map (fun ch => payloadAt payload ch f)) := by
  induction chs with
  | nil => rfl
  | cons ch chs ih =>
    obtain ⟨cd, hcd, hf⟩ := h ch (List.mem_cons_self ch chs)
    have hsample : lookupSample payload ch f = .ok (cd.getD f 0) := by
      simp [lookupSample, hcd, hf]
    have hval : payloadAt payload ch f = cd.getD f 0 := by
      simp [payloadAt, hcd]
    have hrest := ih (fun c hc => h c (List.mem_cons_of_mem ch hc))
    simp [gatherRow, hsample, hrest, hval]

theorem gatherFrames_ok (payload : List (String × List ℚ)) (chs : List Nat)
    (fs : List Nat)
    (h : ∀ f ∈ fs, ∀ ch ∈ chs, ∃ cd, payload.lookup (chKey ch) = some cd ∧ f < cd.length) :
    gatherFrames payload chs fs =
      .ok (fs.flatMap (fun f => chs.map (fun ch => payloadAt payload ch f))) := by
  induction fs with
  | nil => rfl
  | cons f fs ih =>
    have hrow := gatherRow_ok payload f chs (h f (List.mem_cons_self f fs))
    have hrest := ih (fun f' hf' => h f' (List.mem_cons_of_mem f hf'))
    simp [gatherFrames, hrow, hrest]

theorem getD_map_range {α : Type} (h : Nat → α) (d : α) (f m : Nat) (hf : f < m) :
    ((List.range m).map h).getD f d = h f := by
  rw [List.getD_eq_getElem _ _ (by simpa using hf)]
  simp

theorem range_map_getD {α : Type} (v : List α) (d : α) :
    (List.range v.length).map (fun i => v.getD i d) = v := by
  refine List.ext_getElem (by simp) ?_
  intro i h1 h2
  simp [List.getD, List.getElem?_eq_getElem h2]

theorem range_mul_flatMap {α : Type} (h : Nat → α) (m n : Nat) :
    (List.range m).flatMap (fun f => (List.range n).map (fun c => h (f * n + c)))
      = (List.range (m * n)).map h := by
  induction m with
  | zero => simp
  | succ k ih =>
    rw [List.range_succ, List.flatMap_append, ih]
    have : (k + 1) * n = k * n + n := by ring
    rw [this, List.range_add, List.map_append]
    simp [Function.comp]

/-- The payload `packet_to_frame` builds: channels `ch0 .. ch(n-1)` in
insertion order, channel `ch` holding the de-interleaved samples at
indices `frame * n + ch`. -/
def payloadOf (d : SampleData) (n spc : Nat) : List (String × List ℚ) :=
  (List.range n).map (fun ch =>
    (chKey ch, (List.range spc).map (fun frame => decodeAt d (frame * n + ch))))

theorem packet_to_frame_eq (p : PacketBuffer) (seq t : Nat)
    (ht : totalSamples p.data = some t) (hn : p.num_channels ≠ 0)
    (hts : p.timestamp ≠ none ∨ p.sample_rate ≠ 0) :
    ∃ ts, packet_to_frame p seq =
      .ok ⟨ts, seq, payloadOf p.data p.num_channels (t / p.num_channels),
        [("sample_rate", natDecimal p.sample_rate)]⟩ := by
  have hdt : ∃ ts, p.derive_timestamp seq = .ok ts := by
    unfold PacketBuffer.derive_timestamp
    cases hpts : p.timestamp with
    | some ts => exact ⟨ts, rfl⟩
    | none =>
      have hrate : p.sample_rate ≠ 0 := by
        rcases hts with h | h
        · exact absurd hpts h
        · exact h
      have hspp : ∃ spp, samplesPerPacket p.data p.num_channels = .ok spp := by
        unfold samplesPerPacket
        cases p.data <;> simp [hn, totalSamples]
      obtain ⟨spp, hspp⟩ := hspp
      rw [hspp]
      simp [hrate]
  obtain ⟨ts, hdt⟩ := hdt
  refine ⟨ts, ?_⟩
  unfold packet_to_frame
  rw [hdt, ht]
  simp [hn, payloadOf]

theorem frame_to_packet_payloadOf (d : SampleData) (n spc : Nat) (hn : n ≠ 0)
    (F : SampleFormat) (rate ts seq : Nat) (md : List (String × String)) :
    frame_to_packet ⟨ts, seq, payloadOf d n spc, md⟩ F rate =
      .ok ⟨encodeData F ((List.range (spc * n)).map (decodeAt d)), rate, n, some ts⟩ := by
  have hlen : (payloadOf d n spc).length = n := by simp [payloadOf]
  have hhead : ((payloadOf d n spc).headD ("", [])).2.length = spc := by
    obtain ⟨m, rfl⟩ := Nat.exists_eq_succ_of_ne_zero hn
    simp [payloadOf, List.range_succ_eq_map]
  have hgather : gatherFrames (payloadOf d n spc) (List.range n) (List.range spc) =
      .ok ((List.range (spc * n)).map (decodeAt d)) := by
    rw [gatherFrames_ok]
    · congr 1
      rw [← range_mul_flatMap (decodeAt d) spc n]
      refine List.flatMap_congr ?_
      intro f hf
      refine List.map_congr_left ?_
      intro ch hch
      rw [List.mem_range] at hf hch
      have hlook : (payloadOf d n spc).lookup (chKey ch) =
          some ((List.range spc).map (fun frame => decodeAt d (frame * n + ch))) :=
        lookup_map_chKey _ (List.range n) ch (List.mem_range.mpr hch)
      simp [payloadAt, hlook, List.getElem?_range hf]
    · intro f hf ch hch
      rw [List.mem_range] at hf hch
      exact ⟨_, lookup_map_chKey _ (List.range n) ch (List.mem_range.mpr hch),
        by simpa using hf⟩
  unfold frame_to_packet
  simp only [hlen, hhead, hgather, hn, if_false]

theorem getD_cons3 {α : Type} (a b c : α) (l : List α) (d : α) (n : Nat) :
    (a :: b :: c :: l).getD (n + 3) d = l.getD n d := rfl

theorem flatMap_map_comp {α β γ : Type} (f : α → β) (g : β → List γ)
    (l : List α) : (l.map f).flatMap g = l.flatMap (fun x => g (f x)) := by
  induction l with
  | nil => rfl
  | cons x xs ih => simp [ih]

theorem samples24_flatMap (a b c : Nat → Nat) (ks : List Nat) :
    samples24 (ks.flatMap (fun k => [a k, b k, c k]))
      = ks.map (fun k => decode24 (a k) (b k) (c k)) := by
  induction ks with
  | nil => rfl
  | cons k ks ih =>
    rw [List.flatMap_cons, List.map_cons, ← ih]
    rfl

theorem samples24_eq_map (v : List Nat) :
    samples24 v = (List.range (v.length / 3)).map (fun k =>
      decode24 (v.getD (k * 3) 0) (v.getD (k * 3 + 1) 0) (v.getD (k * 3 + 2) 0)) := by
  match v with
  | [] => rfl
  | [b0] => simp [samples24]
  | [b0, b1] => simp [samples24]
  | b0 :: b1 :: b2 :: rest =>
    have ih := samples24_eq_map rest
    have hlen : (b0 :: b1 :: b2 :: rest).length / 3 = rest.length / 3 + 1 := by
      simp only [List.length_cons]
      omega
    rw [hlen, List.range_succ_eq_map, List.map_cons, List.map_map]
    show decode24 b0 b1 b2 :: samples24 rest = _
    rw [ih]
    congr 1
    refine List.map_congr_left ?_
    intro k _
    simp only [Function.comp]
    have e0 : Nat.succ k * 3 = k * 3 + 3 := by omega
    have e1 : k * 3 + 3 + 1 = k * 3 + 1 + 3 := by omega
    have e2 : k * 3 + 3 + 2 = k * 3 + 2 + 3 := by omega
    rw [e0, e1, e2, getD_cons3, getD_cons3, getD_cons3]

theorem intCast_natAbs_self_le_one (x : Int) : (x - x).natAbs ≤ 1 := by omega

/-- C1 (amended): for every well-formed packet in an integer format whose
total sample count is divisible by a *positive* channel count, and whose
timestamp derivation does not divide by a zero sample rate,
`packet_to_frame` followed by `frame_to_packet` in the same format returns
a packet with the same `num_channels` whose integer samples are *equal*
to (hence within 1 LSB of) the originals. -/
theorem c1_roundtrip (p : PacketBuffer) (seq : Nat) (F : SampleFormat)
    (hwf : p.data.wf) (hF : p.data.formatOf = some F)
    (hint : F = .I16 ∨ F = .I24 ∨ F = .I32 ∨ F = .U8)
    (t : Nat) (ht : totalSamples p.data = some t)
    (hdvd : p.num_channels ∣ t) (hn : 0 < p.num_channels)
    (hts : p.timestamp ≠ none ∨ p.sample_rate ≠ 0) :
    ∃ fr q ps qs,
      packet_to_frame p seq = .ok fr
      ∧ frame_to_packet fr F p.sample_rate = .ok q
      ∧ q.num_channels = p.num_channels
      ∧ intSamples F p.data = some ps
      ∧ intSamples F q.data = some qs
      ∧ qs.length = ps.length
      ∧ ∀ i, (qs.getD i 0 - ps.getD i 0).natAbs ≤ 1 := by
  obtain ⟨ts, hframe⟩ := packet_to_frame_eq p seq t ht (Nat.pos_iff_ne_zero.mp hn) hts
  have hmul : t / p.num_channels * p.num_channels = t := Nat.div_mul_cancel hdvd
  have hpacket := frame_to_packet_payloadOf p.data p.num_channels
    (t / p.num_channels) (Nat.pos_iff_ne_zero.mp hn) F p.sample_rate ts seq
    [("sample_rate", natDecimal p.sample_rate)]
  rw [hmul] at hpacket
  cases hd : p.data with
  | I16 v =>
    rw [hd] at hF ht hwf hframe hpacket
    have hFe : F = .I16 := by
      cases hF
      rfl
    have hte : t = v.length := by
      cases ht
      rfl
    subst hFe hte
    have henc : encodeData .I16 ((List.range v.length).map (decodeAt (.I16 v)))
        = .I16 v := by
      simp only [encodeData]
      rw [List.map_map]
      have hcong : ∀ k ∈ List.range v.length,
          (encodeI16 ∘ decodeAt (.I16 v)) k = v.getD k 0 := by
        intro k hk
        rw [List.mem_range] at hk
        have hmem : v.getD k 0 ∈ v := by
          rw [List.getD_eq_getElem v 0 hk]
          exact List.getElem_mem hk
        obtain ⟨hlo, hhi⟩ := hwf _ hmem
        simp only [Function.comp, decodeAt]
        exact encodeI16_decode _ hlo hhi
      rw [List.map_congr_left hcong, range_map_getD]
    rw [henc] at hpacket
    exact ⟨_, _, v, v, hframe, hpacket, rfl, rfl, rfl, rfl,
      fun i => intCast_natAbs_self_le_one _⟩
  | I32 v =>
    rw [hd] at hF ht hwf hframe hpacket
    have hFe : F = .I32 := by
      cases hF
      rfl
    have hte : t = v.length := by
      cases ht
      rfl
    subst hFe hte
    have henc : encodeData .I32 ((List.range v.length).map (decodeAt (.I32 v)))
        = .I32 v := by
      simp only [encodeData]
      rw [List.map_map]
      have hcong : ∀ k ∈ List.range v.length,
          (encodeI32 ∘ decodeAt (.I32 v)) k = v.getD k 0 := by
        intro k hk
        rw [List.mem_range] at hk
        have hmem : v.getD k 0 ∈ v := by
          rw [List.getD_eq_getElem v 0 hk]
          exact List.getElem_mem hk
        obtain ⟨hlo, hhi⟩ := hwf _ hmem
        simp only [Function.comp, decodeAt]
        exact encodeI32_decode _ hlo hhi
      rw [List.map_congr_left hcong, range_map_getD]
    rw [henc] at hpacket
    exact ⟨_, _, v, v, hframe, hpacket, rfl, rfl, rfl, rfl,
      fun i => intCast_natAbs_self_le_one _⟩
  | U8 v =>
    rw [hd] at hF ht hwf hframe hpacket
    have hFe : F = .U8 := by
      cases hF
      rfl
    have hte : t = v.length := by
      cases ht
      rfl
    subst hFe hte
    have henc : encodeData .U8 ((List.range v.length).map (decodeAt (.U8 v)))
        = .U8 v := by
      simp only [encodeData]
      rw [List.map_map]
      have hcong : ∀ k ∈ List.range v.length,
          (encodeU8 ∘ decodeAt (.U8 v)) k = v.getD k 0 := by
        intro k hk
        rw [List.mem_range] at hk
        have hmem : v.getD k 0 ∈ v := by
          rw [List.getD_eq_getElem v 0 hk]
          exact List.getElem_mem hk
        have hb := hwf _ hmem
        simp only [Function.comp, decodeAt]
        exact encodeU8_decode _ hb
      rw [List.map_congr_left hcong, range_map_getD]
    rw [henc] at hpacket
    exact ⟨_, _, v.map Int.ofNat, v.map Int.ofNat, hframe, hpacket, rfl, rfl, rfl, rfl,
      fun i => intCast_natAbs_self_le_one _⟩
  | I24 v =>
    rw [hd] at hF ht hwf hframe hpacket
    have hFe : F = .I24 := by
      cases hF
      rfl
    have hte : t = v.length / 3 := by
      cases ht
      rfl
    subst hFe hte
    have hbyte : ∀ j, j < v.length → v.getD j 0 < 256 := by
      intro j hj
      refine hwf _ ?_
      rw [List.getD_eq_getElem v 0 hj]
      exact List.getElem_mem hj
    have hidx : ∀ k, k < v.length / 3 → k * 3 + 2 < v.length := by
      intro k hk
      have := (Nat.le_div_iff_mul_le (by norm_num : 0 < 3)).mp (Nat.succ_le_of_lt hk)
      omega
    have hflat : ((List.range (v.length / 3)).map (decodeAt (.I24 v))).flatMap
          (fun q => i24Bytes (encodeI24 q))
        = (List.range (v.length / 3)).flatMap (fun k =>
            [v.getD (k * 3) 0, v.getD (k * 3 + 1) 0, v.getD (k * 3 + 2) 0]) := by
      rw [flatMap_map_comp]
      refine List.flatMap_congr ?_
      intro k hk
      rw [List.mem_range] at hk
      have h2 := hidx k hk
      simp only [decodeAt]
      exact encodeI24_decode _ _ _ (hbyte _ (by omega)) (hbyte _ (by omega))
        (hbyte _ h2)
    have h5 : intSamples .I24
        (encodeData .I24 ((List.range (v.length / 3)).map (decodeAt (.I24 v))))
        = some (samples24 v) := by
      simp only [encodeData, intSamples]
      rw [hflat, samples24_flatMap, samples24_eq_map v]
    exact ⟨_, _, samples24 v, samples24 v, hframe, hpacket, rfl, rfl, h5, rfl,
      fun i => intCast_natAbs_self_le_one _⟩
  | F32 v =>
    rw [hd] at hF
    cases hF
    rcases hint with h | h | h | h <;> cases h
  | F64 v =>
    rw [hd] at hF
    cases hF
    rcases hint with h | h | h | h <;> cases h
  | Bytes v =>
    rw [hd] at hF
    cases hF

/-- C1 counterexample: the claim as stated quantifies over *every* packet
whose total sample count is divisible by `num_channels`, which includes
an empty packet with `num_channels = 0` (zero is divisible by zero); on
that input `packet_to_frame` panics on the integer division
`total_samples / packet.num_channels` instead of yielding a packet. -/
theorem c1_counterexample :
    (SampleData.I16 []).formatOf = some .I16
    ∧ totalSamples (SampleData.I16 []) = some 0
    ∧ (0 : Nat) ∣ 0
    ∧ packet_to_frame ⟨.I16 [], 48000, 0, some 7⟩ 1 = .error .panicDivByZero :=
  ⟨rfl, rfl, ⟨0, rfl⟩, rfl⟩

/-- Witness for `c1_roundtrip`: a two-sample mono `I16` packet. -/
theorem c1_roundtrip_witness :
    ∃ fr q ps qs,
      packet_to_frame ⟨.I16 [5, -3], 48000, 1, some 7⟩ 1 = .ok fr
      ∧ frame_to_packet fr .I16 48000 = .ok q
      ∧ q.num_channels = 1
      ∧ intSamples .I16 (SampleData.I16 [5, -3]) = some ps
      ∧ intSamples .I16 q.data = some qs
      ∧ qs.length = ps.length
      ∧ ∀ i, (qs.getD i 0 - ps.getD i 0).natAbs ≤ 1 :=
  c1_roundtrip ⟨.I16 [5, -3], 48000, 1, some 7⟩ 1 .I16
    (by simp only [SampleData.wf]; decide) rfl
    (Or.inl rfl) 2 rfl ⟨2, rfl⟩ (by decide) (Or.inl (by decide))

theorem lookup_of_mem_keys {β : Type} (l : List (String × β)) (k : String)
    (h : k ∈ l.map Prod.fst) : ∃ v, l.lookup k = some v := by
  induction l with
  | nil => simp at h
  | cons p ps ih =>
    obtain ⟨a, b⟩ := p
    by_cases hk : k = a
    · exact ⟨b, by simp [List.lookup_cons, hk]⟩
    · have hmem : k ∈ ps.map Prod.fst := by
        rcases List.mem_cons.mp h with h' | h'
        · exact absurd h' hk
        · exact h'
      obtain ⟨v, hv⟩ := ih hmem
      refine ⟨v, ?_⟩
      rw [List.lookup_cons, show (k == a) = false by simpa using hk]
      exact hv

theorem lookup_eq_none_of_not_mem {β : Type} (l : List (String × β)) (k : String)
    (h : k ∉ l.map Prod.fst) : l.lookup k = none := by
  induction l with
  | nil => rfl
  | cons p ps ih =>
    obtain ⟨a, b⟩ := p
    have hk : k ≠ a := by
      intro hka
      exact h (by simp [hka])
    rw [List.lookup_cons, show (k == a) = false by simpa using hk]
    exact ih (fun hmem => h (by simp [hmem]))

theorem lookup_val_mem {β : Type} (l : List (String × β)) (k : String) (v : β)
    (h : l.lookup k = some v) : ∃ a, (a, v) ∈ l := by
  induction l with
  | nil => cases h
  | cons p ps ih =>
    obtain ⟨a, b⟩ := p
    rw [List.lookup_cons] at h
    cases hk : (k == a) with
    | true =>
      rw [hk] at h
      cases h
      exact ⟨a, List.mem_cons_self _ _⟩
    | false =>
      rw [hk] at h
      obtain ⟨a', ha'⟩ := ih h
      exact ⟨a', List.mem_cons_of_mem _ ha'⟩

theorem gatherRow_range'_error (payload : List (String × List ℚ)) (f c0 : Nat)
    (e : ConvError)
    (hok : ∀ ch, ch < c0 → ∃ v, lookupSample payload ch f = .ok v)
    (hbad : lookupSample payload c0 f = .error e) :
    ∀ len s, s ≤ c0 → c0 < s + len →
      gatherRow payload f (List.range' s len) = .error e := by
  intro len
  induction len with
  | zero =>
    intro s h1 h2
    omega
  | succ k ih =>
    intro s h1 h2
    rw [List.range'_succ]
    by_cases hsc : s = c0
    · subst hsc
      simp [gatherRow, hbad]
    · obtain ⟨v, hv⟩ := hok s (lt_of_le_of_ne h1 hsc)
      have hrest := ih (s + 1) (by omega) (by omega)
      simp only [gatherRow, hv, hrest]

theorem gatherFrames_error_cons (payload : List (String × List ℚ))
    (chs : List Nat) (f : Nat) (fs : List Nat) (e : ConvError)
    (h : gatherRow payload f chs = .error e) :
    gatherFrames payload chs (f :: fs) = .error e := by
  simp [gatherFrames, h]

/-- C9 (amended): `frame_to_packet` derives the channel count `n` from the
payload entry count and, at every sample index, looks up exactly the keys
`ch0 .. ch(n-1)`: an empty payload fails with the no-channels error; a
non-empty payload whose (distinct) key set is not exactly
`(ch0 .. ch(n-1))` and whose channel vectors share one positive length
fails with a missing-channel error; and a frame carrying only the
software-generator name `main_channel` with at least one sample can never
be converted in any format.  (When the reference channel is empty the
loops never look up a key and conversion succeeds; see the
counterexample.) -/
theorem c9_channel_keys (fmt : SampleFormat) (rate : Nat) :
    (∀ fr : DataFrame, fr.payload = [] →
      frame_to_packet fr fmt rate = .error .noChannels)
    ∧ (∀ (fr : DataFrame) (L : Nat), fr.payload ≠ [] →
        (fr.payload.map Prod.fst).Nodup →
        (∀ kv ∈ fr.payload, kv.2.length = L) → 0 < L →
        (fr.payload.map Prod.fst).toFinset ≠
          (Finset.range fr.payload.length).image chKey →
        ∃ c < fr.payload.length,
          frame_to_packet fr fmt rate = .error (.missingChannel c))
    ∧ (∀ q : ℚ, frame_to_packet ⟨0, 0, [("main_channel", [q])], []⟩ fmt rate
        = .error (.missingChannel 0)) := by
  refine ⟨?_, ?_, ?_⟩
  · intro fr hfr
    unfold frame_to_packet
    rw [hfr]
    rfl
  · intro fr L hne hnodup hL hLpos hkeys
    have hn : fr.payload.length ≠ 0 := fun h => hne (List.eq_nil_of_length_eq_zero h)
    have hexists : ∃ c, chKey c ∉ fr.payload.map Prod.fst := by
      by_contra hcon
      push_neg at hcon
      apply hkeys
      have hsub : (Finset.range fr.payload.length).image chKey ⊆
          (fr.payload.map Prod.fst).toFinset := by
        intro x hx
        simp only [Finset.mem_image, Finset.mem_range] at hx
        obtain ⟨c, _, rfl⟩ := hx
        rw [List.mem_toFinset]
        exact hcon c
      have hcard1 : ((Finset.range fr.payload.length).image chKey).card
          = fr.payload.length := by
        rw [Finset.card_image_of_injective _ chKey_injective, Finset.card_range]
      have hcard2 : (fr.payload.map Prod.fst).toFinset.card = fr.payload.length := by
        rw [List.toFinset_card_of_nodup hnodup, List.length_map]
      exact (Finset.eq_of_subset_of_card_le hsub (by rw [hcard1, hcard2])).symm
    have hc0 : chKey (Nat.find hexists) ∉ fr.payload.map Prod.fst :=
      Nat.find_spec hexists
    have hmin : ∀ ch, ch < Nat.find hexists →
        chKey ch ∈ fr.payload.map Prod.fst := by
      intro ch hch
      by_contra hnotin
      exact absurd (Nat.find_le hnotin) (Nat.not_le.mpr hch)
    have hc0n : Nat.find hexists < fr.payload.length := by
      by_contra hge
      push_neg at hge
      apply hc0
      exfalso
      -- every index below the payload length has its key present, and if
      -- c0 were ≥ length then all of ch0..ch(length-1) would be present,
      -- contradicting the cardinality argument; but we can argue directly:
      -- minimality says every ch < c0 has its key present, in particular
      -- every ch < length, contradicting hkeys as in hexists.
      apply hkeys
      have hsub : (Finset.range fr.payload.length).image chKey ⊆
          (fr.payload.map Prod.fst).toFinset := by
        intro x hx
        simp only [Finset.mem_image, Finset.mem_range] at hx
        obtain ⟨c, hc, rfl⟩ := hx
        rw [List.mem_toFinset]
        exact hmin c (lt_of_lt_of_le hc hge)
      -- (cardinality clash as before)
      have hcard1 : ((Finset.range fr.payload.length).image chKey).card
          = fr.payload.length := by
        rw [Finset.card_image_of_injective _ chKey_injective, Finset.card_range]
      have hcard2 : (fr.payload.map Prod.fst).toFinset.card = fr.payload.length := by
        rw [List.toFinset_card_of_nodup hnodup, List.length_map]
      exact (Finset.eq_of_subset_of_card_le hsub (by rw [hcard1, hcard2])).symm
    refine ⟨Nat.find hexists, hc0n, ?_⟩
    have hrow : gatherRow fr.payload 0 (List.range fr.payload.length)
        = .error (.missingChannel (Nat.find hexists)) := by
      rw [List.range_eq_range']
      refine gatherRow_range'_error fr.payload 0 (Nat.find hexists) _ ?_ ?_
        fr.payload.length 0 (Nat.zero_le _) (by omega)
      · intro ch hch
        obtain ⟨cd, hcd⟩ := lookup_of_mem_keys _ _ (hmin ch hch)
        obtain ⟨a, ha⟩ := lookup_val_mem _ _ _ hcd
        have hcdlen : cd.length = L := hL _ ha
        refine ⟨cd.getD 0 0, ?_⟩
        simp [lookupSample, hcd, hcdlen, hLpos]
      · simp [lookupSample, lookup_eq_none_of_not_mem _ _ hc0]
    have hhead : ((fr.payload.headD ("", [])).2).length = L := by
      obtain ⟨kv, rest, hkv⟩ := List.exists_cons_of_ne_nil hne
      rw [hkv]
      exact hL kv (by rw [hkv]; exact List.mem_cons_self _ _)
    obtain ⟨m, hm⟩ := Nat.exists_eq_succ_of_ne_zero (Nat.pos_iff_ne_zero.mp hLpos)
    have hgather : gatherFrames fr.payload (List.range fr.payload.length)
        (List.range ((fr.payload.headD ("", [])).2).length)
        = .error (.missingChannel (Nat.find hexists)) := by
      rw [hhead, hm, List.range_succ_eq_map]
      exact gatherFrames_error_cons _ _ _ _ _ hrow
    unfold frame_to_packet
    simp only [hn, if_false, hgather]
  · intro q
    rfl

/-- C9 counterexample: a frame whose only channel is `main_channel` with
an *empty* sample vector converts successfully (samples-per-channel is 0,
so no key is ever looked up), refuting both "whose key set is not exactly
(ch0..) it fails with a missing-channel error" and "can never be
converted". -/
theorem c9_counterexample :
    frame_to_packet ⟨0, 0, [("main_channel", [])], []⟩ .I16 48000
      = .ok ⟨.I16 [], 48000, 1, some 0⟩ := rfl

/-- Witness for `c9_channel_keys`: the empty frame, a one-sample
`main_channel` frame with distinct keys, and the concrete
`main_channel` conjunct. -/
theorem c9_channel_keys_witness :
    frame_to_packet ⟨0, 0, [], []⟩ .I16 48000 = .error .noChannels
    ∧ (∃ c < (1 : Nat), frame_to_packet ⟨0, 0, [("main_channel", [0])], []⟩ .I16 48000
        = .error (.missingChannel c))
    ∧ frame_to_packet ⟨0, 0, [("main_channel", [(1 : ℚ)])], []⟩ .I16 48000
        = .error (.missingChannel 0) := by
  have h := c9_channel_keys .I16 48000
  refine ⟨h.1 ⟨0, 0, [], []⟩ rfl, ?_, h.2.2 1⟩
  exact h.2.1 ⟨0, 0, [("main_channel", [0])], []⟩ 1 (List.cons_ne_nil _ _)
    (by simp) (by simp) Nat.one_pos (by decide)

/-! ## Resilient node (`src/resilience/resilient_node.rs`,
`src/observability/metrics.rs`) -/

/-- The two `NodeMetrics` counters the resilience claims concern
(`frames_processed` and `errors_count`; the remaining counters record
wall-clock latency and are not modelled). -/
structure NodeMetrics where
  frames_processed : Nat
  errors_count : Nat
deriving DecidableEq

/-- `ErrorPolicy` from `src/resilience`. -/
inductive ErrorPolicy where
  | Propagate
  | SkipFrame
  | UseDefault (frame : DataFrame)
deriving DecidableEq

/-- `ResilientNode::run` (`src/resilience/resilient_node.rs` lines 36-81)
as a pure loop over the frames the inbound channel delivers; the inner
node's `process` is the function parameter, and downstream sends are
collected in order (downstream-closure send failures are not modelled).
Returns the run result, the final metrics, and the emitted frames. -/
def ResilientNode.run (process : DataFrame → Except String DataFrame)
    (error_policy : ErrorPolicy) :
    List DataFrame → NodeMetrics →
      Except String Unit × NodeMetrics × List DataFrame
  | [], m => (.ok (), m, [])
  | frame :: rest, m =>
    match process frame with
    | .ok output =>
      let r := ResilientNode.run process error_policy rest
        ⟨m.frames_processed + 1, m.errors_count⟩
      (r.1, r.2.1, output :: r.2.2)
    | .error _ =>
      match error_policy with
      | .Propagate =>
        (.error "Node error", ⟨m.frames_processed, m.errors_count + 1⟩, [])
      | .SkipFrame =>
        ResilientNode.run process error_policy rest
          ⟨m.frames_processed, m.errors_count + 1⟩
      | .UseDefault default_frame =>
        let r := ResilientNode.run process error_policy rest
          ⟨m.frames_processed, m.errors_count + 1⟩
        (r.1, r.2.1, default_frame :: r.2.2)

/-- C5: per handled frame, a successful `process` bumps
`frames_processed` by exactly 1, leaves `errors_count` unchanged and
forwards the produced frame; a failed `process` bumps `errors_count` by
exactly 1, leaves `frames_processed` unchanged and applies the policy:
`SkipFrame` emits nothing and continues, `UseDefault` emits the supplied
frame and continues, `Propagate` terminates the run with an error. -/
theorem c5_resilient_step (process : DataFrame → Except String DataFrame)
    (policy : ErrorPolicy) (frame : DataFrame) (rest : List DataFrame)
    (m : NodeMetrics) :
    (∀ output, process frame = .ok output →
      ResilientNode.run process policy (frame :: rest) m
        = ((ResilientNode.run process policy rest
              ⟨m.frames_processed + 1, m.errors_count⟩).1,
           (ResilientNode.run process policy rest
              ⟨m.frames_processed + 1, m.errors_count⟩).2.1,
           output :: (ResilientNode.run process policy rest
              ⟨m.frames_processed + 1, m.errors_count⟩).2.2))
    ∧ (∀ e, process frame = .error e →
        (policy = .SkipFrame →
          ResilientNode.run process policy (frame :: rest) m
            = ResilientNode.run process policy rest
                ⟨m.frames_processed, m.errors_count + 1⟩)
        ∧ (∀ df, policy = .UseDefault df →
            ResilientNode.run process policy (frame :: rest) m
              = ((ResilientNode.run process policy rest
                    ⟨m.frames_processed, m.errors_count + 1⟩).1,
                 (ResilientNode.run process policy rest
                    ⟨m.frames_processed, m.errors_count + 1⟩).2.1,
                 df :: (ResilientNode.run process policy rest
                    ⟨m.frames_processed, m.errors_count + 1⟩).2.2))
        ∧ (policy = .Propagate →
            ResilientNode.run process policy (frame :: rest) m
              = (.error "Node error",
                 ⟨m.frames_processed, m.errors_count + 1⟩, []))) := by
  refine ⟨?_, ?_⟩
  · intro output hok
    simp [ResilientNode.run, hok]
  · intro e herr
    refine ⟨?_, ?_, ?_⟩
    · intro hp
      subst hp
      simp [ResilientNode.run, herr]
    · intro df hp
      subst hp
      simp [ResilientNode.run, herr]
    · intro hp
      subst hp
      simp [ResilientNode.run, herr]

/-- Witness for `c5_resilient_step`: one succeeding frame under
`SkipFrame`, one failing frame under `Propagate`. -/
theorem c5_resilient_step_witness :
    ResilientNode.run (fun f => .ok f) .SkipFrame [⟨0, 0, [], []⟩] ⟨3, 4⟩
      = (.ok (), ⟨4, 4⟩, [⟨0, 0, [], []⟩])
    ∧ ResilientNode.run (fun _ => .error "boom") .Propagate [⟨0, 0, [], []⟩] ⟨3, 4⟩
      = (.error "Node error", ⟨3, 5⟩, []) := by
  have h1 := c5_resilient_step (fun f => .ok f) .SkipFrame ⟨0, 0, [], []⟩ [] ⟨3, 4⟩
  have h2 := c5_resilient_step (fun _ => .error "boom") .Propagate ⟨0, 0, [], []⟩ []
    ⟨3, 4⟩
  constructor
  · rw [h1.1 ⟨0, 0, [], []⟩ rfl]
    rfl
  · exact (h2.2 "boom" rfl).2.2 rfl

/-! ## Scheduler (`src/engine/priority.rs`, `src/engine/scheduler.rs`) -/

/-- `Priority` from `src/engine/priority.rs`. -/
inductive Priority where
  | Critical
  | High
  | Normal
  | Low
deriving DecidableEq

/-- `Priority::value` (`u8`; higher = more urgent). -/
def Priority.value : Priority → Nat
  | .Critical => 3
  | .High => 2
  | .Normal => 1
  | .Low => 0

/-- `Priority::target_latency_ms`. -/
def Priority.target_latency_ms : Priority → Nat
  | .Critical => 10
  | .High => 50
  | .Normal => 200
  | .Low => 1000

/-- `Ord for Priority`: compares the numeric values. -/
def Priority.cmp (a b : Priority) : Ordering := compare a.value b.value

/-- `PrioritizedTask` with the `JoinHandle` payload abstracted away to
the task id. -/
structure PrioritizedTask where
  priority : Priority
  task_id : Nat
deriving DecidableEq

/-- `Ord for PrioritizedTask` (`src/engine/scheduler.rs` lines 28-36):
higher priority first, ties broken by the *reversed* `task_id`
comparison, so the smallest id (earliest submission) is the greatest. -/
def PrioritizedTask.cmp (self other : PrioritizedTask) : Ordering :=
  match self.priority.cmp other.priority with
  | .eq => compare other.task_id self.task_id
  | o => o

/-- `PipelineScheduler` state; the `BinaryHeap` is the list of queued
tasks (push appends, pop removes a maximal element under the task
ordering), active handles are their task ids. -/
structure PipelineScheduler where
  max_concurrent : Nat
  active_tasks : List Nat
  pending_queue : List PrioritizedTask
  next_task_id : Nat
deriving DecidableEq

/-- `PipelineScheduler::schedule_task`: the future is spawned either way;
it is placed in the active set and `true` returned iff fewer than
`max_concurrent` tasks are active, otherwise it is pushed on the pending
heap and `false` returned. -/
def schedule_task (s : PipelineScheduler) (priority : Priority) :
    Bool × PipelineScheduler :=
  if s.active_tasks.length < s.max_concurrent then
    (true, ⟨s.max_concurrent, s.active_tasks ++ [s.next_task_id],
      s.pending_queue, s.next_task_id + 1⟩)
  else
    (false, ⟨s.max_concurrent, s.active_tasks,
      s.pending_queue ++ [⟨priority, s.next_task_id⟩], s.next_task_id + 1⟩)

/-- `BinaryHeap::pop` as used by `poll_completions` and `wait_all`:
removes and returns a maximal element under `PrioritizedTask.cmp` (for
the left-most maximal one, matching the heap's determinism up to equal
keys). -/
def heapPop (l : List PrioritizedTask) :
    Option (PrioritizedTask × List PrioritizedTask) :=
  match l with
  | [] => none
  | t :: ts =>
    let best := ts.foldl (fun acc u => if acc.cmp u = .lt then u else acc) t
    some (best, l.erase best)

theorem cmp_lt_iff (a b : PrioritizedTask) :
    a.cmp b = .lt ↔ (a.priority.value < b.priority.value
      ∨ (a.priority.value = b.priority.value ∧ b.task_id < a.task_id)) := by
  unfold PrioritizedTask.cmp Priority.cmp
  rcases Nat.lt_trichotomy a.priority.value b.priority.value with h | h | h
  · rw [Nat.compare_eq_lt.mpr h]
    constructor
    · intro _
      exact Or.inl h
    · intro _
      rfl
  · rw [(Nat.compare_eq_eq).mpr h]
    constructor
    · intro hlt
      refine Or.inr ⟨h, ?_⟩
      exact Nat.compare_eq_lt.mp hlt
    · intro hor
      rcases hor with h' | ⟨_, h'⟩
      · omega
      · exact Nat.compare_eq_lt.mpr h'
  · rw [Nat.compare_eq_gt.mpr h]
    constructor
    · intro hlt
      cases hlt
    · intro hor
      rcases hor with h' | ⟨h', _⟩ <;> omega

theorem Priority.value_inj : ∀ a b : Priority, Priority.value a = Priority.value b → a = b := by
  intro a b
  cases a <;> cases b <;> simp [Priority.value]

theorem cmp_not_lt_trans (a b c : PrioritizedTask)
    (h1 : ¬ a.cmp b = .lt) (h2 : ¬ b.cmp c = .lt) : ¬ a.cmp c = .lt := by
  rw [cmp_lt_iff] at h1 h2 ⊢
  omega

theorem foldl_max_spec (ts : List PrioritizedTask) (t : PrioritizedTask) :
    (ts.foldl (fun acc u => if acc.cmp u = .lt then u else acc) t ∈ t :: ts)
    ∧ (∀ u ∈ t :: ts,
        ¬ (ts.foldl (fun acc u => if acc.cmp u = .lt then u else acc) t).cmp u
          = .lt) := by
  induction ts generalizing t with
  | nil =>
    refine ⟨List.mem_cons_self t [], ?_⟩
    intro u hu
    rcases List.mem_cons.mp hu with rfl | h
    · show ¬ u.cmp u = .lt
      rw [cmp_lt_iff]
      omega
    · cases h
  | cons u us ih =>
    obtain ⟨ihmem, ihmax⟩ := ih (if t.cmp u = .lt then u else t)
    have hstep : ∀ z : PrioritizedTask, z = t ∨ z = u →
        ¬ ((if t.cmp u = .lt then u else t).cmp z) = .lt := by
      intro z hz
      by_cases hc : t.cmp u = .lt
      · rw [if_pos hc]
        rw [cmp_lt_iff] at hc
        rcases hz with rfl | rfl <;> (rw [cmp_lt_iff]; omega)
      · rw [if_neg hc]
        rw [cmp_lt_iff] at hc
        rcases hz with rfl | rfl <;> (rw [cmp_lt_iff]; omega)
    have hbest := ihmax (if t.cmp u = .lt then u else t) (List.mem_cons_self _ _)
    constructor
    · show List.foldl _ (if t.cmp u = .lt then u else t) us ∈ t :: u :: us
      rcases List.mem_cons.mp ihmem with heq | hmem
      · by_cases hc : t.cmp u = .lt
        · rw [if_pos hc] at heq ⊢
          rw [heq]
          exact List.mem_cons_of_mem t (List.mem_cons_self u us)
        · rw [if_neg hc] at heq ⊢
          rw [heq]
          exact List.mem_cons_self t (u :: us)
      · exact List.mem_cons_of_mem t (List.mem_cons_of_mem u hmem)
    · intro w hw
      show ¬ (List.foldl _ (if t.cmp u = .lt then u else t) us).cmp w = .lt
      rcases List.mem_cons.mp hw with rfl | hw'
      · exact cmp_not_lt_trans _ _ _ hbest (hstep w (Or.inl rfl))
      · rcases List.mem_cons.mp hw' with rfl | hw''
        · exact cmp_not_lt_trans _ _ _ hbest (hstep w (Or.inr rfl))
        · exact ihmax w (List.mem_cons_of_mem _ hw'')

/-- C7: `schedule_task` starts the task (appending it to the active set)
and returns `true` iff strictly fewer than `max_concurrent` tasks are
active, otherwise enqueues it and returns `false`; the priority values
are Critical 3 > High 2 > Normal 1 > Low 0; and every heap pop removes
and yields a queued task of maximal priority, ties resolved in favour of
the smallest task id (FIFO submission order). -/
theorem c7_scheduler (s : PipelineScheduler) (p : Priority) :
    ((schedule_task s p).1 = true ↔ s.active_tasks.length < s.max_concurrent)
    ∧ (s.active_tasks.length < s.max_concurrent →
        (schedule_task s p).2.active_tasks = s.active_tasks ++ [s.next_task_id]
        ∧ (schedule_task s p).2.pending_queue = s.pending_queue)
    ∧ (¬ s.active_tasks.length < s.max_concurrent →
        (schedule_task s p).2.pending_queue
          = s.pending_queue ++ [⟨p, s.next_task_id⟩]
        ∧ (schedule_task s p).2.active_tasks = s.active_tasks)
    ∧ (Priority.Critical.value = 3 ∧ Priority.High.value = 2
        ∧ Priority.Normal.value = 1 ∧ Priority.Low.value = 0)
    ∧ (∀ (l : List PrioritizedTask) (t : PrioritizedTask)
          (rest : List PrioritizedTask),
        heapPop l = some (t, rest) →
        t ∈ l ∧ rest = l.erase t
        ∧ ∀ u ∈ l, u.priority.value < t.priority.value
            ∨ (u.priority = t.priority ∧ t.task_id ≤ u.task_id)) := by
  refine ⟨?_, ?_, ?_, ⟨rfl, rfl, rfl, rfl⟩, ?_⟩
  · unfold schedule_task
    split <;> simp_all
  · intro h
    simp [schedule_task, h]
  · intro h
    simp [schedule_task, h]
  · intro l t rest hpop
    match l, hpop with
    | t0 :: ts, hpop =>
      simp only [heapPop] at hpop
      obtain ⟨hmem, hmax⟩ := foldl_max_spec ts t0
      cases hpop
      refine ⟨hmem, rfl, ?_⟩
      intro u hu
      have := hmax u hu
      rw [cmp_lt_iff] at this
      push_neg at this
      by_cases hv : u.priority.value < (ts.foldl
          (fun acc u => if acc.cmp u = .lt then u else acc) t0).priority.value
      · exact Or.inl hv
      · refine Or.inr ⟨Priority.value_inj _ _ (by omega), by omega⟩

/-- Witness for `c7_scheduler`: a scheduler with a free slot starts the
task; popping a two-element heap yields the higher-priority task. -/
theorem c7_scheduler_witness :
    (schedule_task ⟨2, [7], [], 9⟩ .Normal).1 = true
    ∧ (schedule_task ⟨2, [7], [], 9⟩ .Normal).2.active_tasks = [7, 9]
    ∧ (⟨.High, 1⟩ : PrioritizedTask) ∈ [⟨.Low, 0⟩, ⟨.High, 1⟩]
    ∧ (∀ u ∈ ([⟨.Low, 0⟩, ⟨.High, 1⟩] : List PrioritizedTask),
        u.priority.value < (Priority.High).value
          ∨ (u.priority = .High ∧ (1 : Nat) ≤ u.task_id)) := by
  have h := c7_scheduler ⟨2, [7], [], 9⟩ .Normal
  have hpop := (c7_scheduler ⟨2, [7], [], 9⟩ .Normal).2.2.2.2
    [⟨.Low, 0⟩, ⟨.High, 1⟩] ⟨.High, 1⟩ [⟨.Low, 0⟩] rfl
  exact ⟨h.1.mpr (by decide), (h.2.1 (by decide)).1, hpop.1, hpop.2.2⟩

/-! ## Hardware configuration manager
(`src/src-tauri/src/hardware_manager/config.rs`) -/

/-- `RegisteredHardware` restricted to the fields the claims touch
(`registration_id`, `user_name`, `enabled`, `sample_rate`; the remaining
descriptive fields do not participate in any verified operation). -/
structure RegisteredHardware where
  registration_id : String
  user_name : String
  enabled : Bool
  sample_rate : Nat
deriving DecidableEq

/-- `HardwareConfig`: the in-memory registered-device list. -/
structure HardwareConfig where
  registered_devices : List RegisteredHardware
deriving DecidableEq

/-- Errors of the configuration manager ("already exists" / "Device not
found"). -/
inductive ConfigError where
  | duplicateUserName (name : String)
  | deviceNotFound
deriving DecidableEq

/-- `HardwareConfigManager::register_device`; the second component is the
in-memory list after the call (the `save()` to disk is outside the
model and happens after the in-memory update either way). -/
def register_device (cfg : HardwareConfig) (device : RegisteredHardware) :
    Except ConfigError Unit × HardwareConfig :=
  if cfg.registered_devices.any (fun d => d.user_name == device.user_name) then
    (.error (.duplicateUserName device.user_name), cfg)
  else
    (.ok (), ⟨cfg.registered_devices ++ [device]⟩)

/-- `HardwareConfigManager::update_device`. -/
def update_device (cfg : HardwareConfig) (registration_id : String)
    (updated : RegisteredHardware) : Except ConfigError Unit × HardwareConfig :=
  match cfg.registered_devices.findIdx?
      (fun d => d.registration_id == registration_id) with
  | none => (.error .deviceNotFound, cfg)
  | some device_pos =>
    if (cfg.registered_devices.getD device_pos ⟨"", "", false, 0⟩).user_name
          != updated.user_name
        && cfg.registered_devices.any (fun d =>
            d.registration_id != registration_id
              && d.user_name == updated.user_name) then
      (.error (.duplicateUserName updated.user_name), cfg)
    else
      (.ok (), ⟨cfg.registered_devices.set device_pos updated⟩)

/-- C8: `register_device` fails on a duplicate `user_name` leaving the
in-memory list unchanged and appends the device otherwise;
`update_device` fails, leaving the list unchanged, exactly when it would
change the entry's `user_name` to one held by a different entry, and
otherwise replaces the entry in place. -/
theorem c8_unique_user_name (cfg : HardwareConfig) (dev : RegisteredHardware)
    (rid : String) (upd : RegisteredHardware) :
    ((∃ d ∈ cfg.registered_devices, d.user_name = dev.user_name) →
        (register_device cfg dev).1 = .error (.duplicateUserName dev.user_name)
        ∧ (register_device cfg dev).2 = cfg)
    ∧ ((∀ d ∈ cfg.registered_devices, d.user_name ≠ dev.user_name) →
        (register_device cfg dev).1 = .ok ()
        ∧ (register_device cfg dev).2.registered_devices
            = cfg.registered_devices ++ [dev])
    ∧ (∀ pos, cfg.registered_devices.findIdx?
          (fun d => d.registration_id == rid) = some pos →
        ((cfg.registered_devices.getD pos ⟨"", "", false, 0⟩).user_name
            ≠ upd.user_name
          ∧ ∃ d ∈ cfg.registered_devices,
              d.registration_id ≠ rid ∧ d.user_name = upd.user_name) →
        (update_device cfg rid upd).1 = .error (.duplicateUserName upd.user_name)
        ∧ (update_device cfg rid upd).2 = cfg)
    ∧ (∀ pos, cfg.registered_devices.findIdx?
          (fun d => d.registration_id == rid) = some pos →
        ((cfg.registered_devices.getD pos ⟨"", "", false, 0⟩).user_name
            = upd.user_name
          ∨ ∀ d ∈ cfg.registered_devices,
              d.registration_id = rid ∨ d.user_name ≠ upd.user_name) →
        (update_device cfg rid upd).1 = .ok ()
        ∧ (update_device cfg rid upd).2.registered_devices
            = cfg.registered_devices.set pos upd) := by
  refine ⟨?_, ?_, ?_, ?_⟩
  · intro ⟨d, hd, hname⟩
    have hany : cfg.registered_devices.any
        (fun d => d.user_name == dev.user_name) = true := by
      rw [List.any_eq_true]
      exact ⟨d, hd, by simpa using hname⟩
    simp [register_device, hany]
  · intro h
    have hany : cfg.registered_devices.any
        (fun d => d.user_name == dev.user_name) = false := by
      rw [List.any_eq_false]
      intro d hd
      simpa using h d hd
    simp [register_device, hany]
  · intro pos hpos ⟨hne, d, hd, hrid, hname⟩
    have hcond : ((cfg.registered_devices.getD pos ⟨"", "", false, 0⟩).user_name
          != upd.user_name
        && cfg.registered_devices.any (fun d =>
            d.registration_id != rid && d.user_name == upd.user_name)) = true := by
      rw [Bool.and_eq_true, List.any_eq_true]
      exact ⟨by simpa using hne, d, hd, by simp [hrid, hname]⟩
    unfold update_device
    rw [hpos]
    dsimp only
    rw [if_pos hcond]
    exact ⟨rfl, rfl⟩
  · intro pos hpos hcase
    have hcond : ((cfg.registered_devices.getD pos ⟨"", "", false, 0⟩).user_name
          != upd.user_name
        && cfg.registered_devices.any (fun d =>
            d.registration_id != rid && d.user_name == upd.user_name)) = false := by
      rcases hcase with h | h
      · rw [Bool.and_eq_false_iff]
        left
        rw [bne_eq_false_iff_eq]
        exact h
      · rw [Bool.and_eq_false_iff]
        right
        rw [List.any_eq_false]
        intro d hd
        rcases h d hd with h' | h' <;> simp [h']
    unfold update_device
    rw [hpos]
    dsimp only
    rw [if_neg (by rw [hcond]; exact Bool.false_ne_true)]
    exact ⟨rfl, rfl⟩

/-- Witness for `c8_unique_user_name`: registering a fresh device
succeeds and appends; re-registering the same `user_name` fails and
leaves the list unchanged. -/
theorem c8_unique_user_name_witness :
    (register_device ⟨[]⟩ ⟨"r1", "Main Mic", true, 48000⟩).1 = .ok ()
    ∧ (register_device ⟨[⟨"r1", "Main Mic", true, 48000⟩]⟩
        ⟨"r2", "Main Mic", true, 48000⟩).1
      = .error (.duplicateUserName "Main Mic")
    ∧ (register_device ⟨[⟨"r1", "Main Mic", true, 48000⟩]⟩
        ⟨"r2", "Main Mic", true, 48000⟩).2
      = ⟨[⟨"r1", "Main Mic", true, 48000⟩]⟩ := by
  have h1 := c8_unique_user_name ⟨[]⟩ ⟨"r1", "Main Mic", true, 48000⟩ ""
    ⟨"", "", false, 0⟩
  have h2 := c8_unique_user_name ⟨[⟨"r1", "Main Mic", true, 48000⟩]⟩
    ⟨"r2", "Main Mic", true, 48000⟩ "" ⟨"", "", false, 0⟩
  have hdup := h2.1 ⟨⟨"r1", "Main Mic", true, 48000⟩, by simp, rfl⟩
  exact ⟨(h1.2.1 (by simp)).1, hdup.1, hdup.2⟩

/-! ## Pipeline trigger (`src/engine/async_pipeline.rs`) -/

/-- The two `AsyncPipeline` fields `trigger`, `start` and `stop` interact
with: the detected source node id and the saved per-node senders
(`channels`), with senders abstracted to numeric ids. -/
structure AsyncPipelineChannels where
  source_node_id : Option String
  channels : List (String × Nat)
deriving DecidableEq

/-- `AsyncPipeline::trigger` (`src/engine/async_pipeline.rs` lines
190-197).  The result's payload records the delivery: `none` means the
frame was silently discarded, `some (id, frame)` that it was sent into
node `id`'s inbox.  (A send onto a closed channel would return an error;
channel closure is not modelled, and no claim depends on it.) -/
def AsyncPipelineChannels.trigger (p : AsyncPipelineChannels)
    (frame : DataFrame) : Except String (Option (String × DataFrame)) :=
  match p.source_node_id with
  | none => .ok none
  | some source_id =>
    match p.channels.lookup source_id with
    | none => .ok none
    | some _tx => .ok (some (source_id, frame))

/-- The one insertion `start` performs into `self.channels`: the saved
clone of the source node's sender (`src/engine/async_pipeline.rs` lines
124-129); the rest of `start` (spawning) does not touch `channels`. -/
def AsyncPipelineChannels.start_channels (p : AsyncPipelineChannels) :
    AsyncPipelineChannels :=
  match p.source_node_id with
  | some source_id => ⟨p.source_node_id, p.channels ++ [(source_id, 0)]⟩
  | none => p

/-- `stop`'s `std::mem::take(&mut self.channels)` (lines 199-220). -/
def AsyncPipelineChannels.stop_channels (p : AsyncPipelineChannels) :
    AsyncPipelineChannels :=
  ⟨p.source_node_id, []⟩

theorem lookup_append_singleton_isSome {β : Type} (l : List (String × β))
    (k : String) (v : β) : ∃ w, (l ++ [(k, v)]).lookup k = some w := by
  induction l with
  | nil => exact ⟨v, by simp [List.lookup]⟩
  | cons p ps ih =>
    obtain ⟨a, b⟩ := p
    by_cases hk : k = a
    · exact ⟨b, by simp [List.lookup_cons, hk]⟩
    · obtain ⟨w, hw⟩ := ih
      refine ⟨w, ?_⟩
      rw [List.cons_append, List.lookup_cons,
        show (k == a) = false by simpa using hk]
      exact hw

/-- C10: `trigger` returns `Ok` and silently discards the frame whenever
no trigger endpoint is registered — no source node, `start()` not yet
called (no saved sender), or after `stop()` cleared the senders — and
delivers the frame into a node inbox exactly when a saved source-node
sender exists. -/
theorem c10_trigger (p : AsyncPipelineChannels) (frame : DataFrame) :
    (p.source_node_id = none → p.trigger frame = .ok none)
    ∧ (p.channels = [] → p.trigger frame = .ok none)
    ∧ (p.stop_channels.trigger frame = .ok none)
    ∧ (∀ sid f', p.trigger frame = .ok (some (sid, f')) →
        f' = frame ∧ p.source_node_id = some sid
        ∧ ∃ tx, p.channels.lookup sid = some tx)
    ∧ (∀ sid, p.source_node_id = some sid →
        p.start_channels.trigger frame = .ok (some (sid, frame))) := by
  refine ⟨?_, ?_, ?_, ?_, ?_⟩
  · intro h
    simp [AsyncPipelineChannels.trigger, h]
  · intro h
    unfold AsyncPipelineChannels.trigger
    cases p.source_node_id <;> simp [h, List.lookup]
  · unfold AsyncPipelineChannels.trigger AsyncPipelineChannels.stop_channels
    cases p.source_node_id <;> simp [List.lookup]
  · intro sid f' h
    unfold AsyncPipelineChannels.trigger at h
    cases hs : p.source_node_id with
    | none => rw [hs] at h; cases h
    | some source_id =>
      rw [hs] at h
      dsimp only at h
      cases hl : p.channels.lookup source_id with
      | none =>
        rw [hl] at h
        cases h
      | some tx =>
        rw [hl] at h
        dsimp only at h
        cases h
        exact ⟨rfl, rfl, tx, hl⟩
  · intro sid hs
    unfold AsyncPipelineChannels.trigger AsyncPipelineChannels.start_channels
    rw [hs]
    obtain ⟨w, hw⟩ := lookup_append_singleton_isSome p.channels sid 0
    simp [hw]

/-- Witness for `c10_trigger`: a started single-node pipeline delivers
the trigger frame to its source node; a stopped one discards it. -/
theorem c10_trigger_witness :
    (AsyncPipelineChannels.trigger ⟨some "gen", [("gen", 0)]⟩ ⟨0, 0, [], []⟩)
      = .ok (some ("gen", ⟨0, 0, [], []⟩))
    ∧ (AsyncPipelineChannels.trigger ⟨some "gen", []⟩ ⟨0, 0, [], []⟩) = .ok none := by
  have h1 := c10_trigger ⟨some "gen", [("gen", 0)]⟩ ⟨0, 0, [], []⟩
  have h0 := c10_trigger ⟨some "gen", []⟩ ⟨0, 0, [], []⟩
  constructor
  · have := (c10_trigger ⟨some "gen", []⟩ ⟨0, 0, [], []⟩).2.2.2.2 "gen" rfl
    simpa [AsyncPipelineChannels.start_channels] using this
  · exact h0.2.1 rfl

/-! ## Kernel start (`src/engine/kernel.rs`) -/

/-- `KernelStatus` from `src/engine/kernel.rs`. -/
inductive KernelStatus where
  | Stopped
  | Initializing
  | Running
  | Error
deriving DecidableEq

/-- Outcome abstraction of one registered device for `start`: `enabled`
mirrors `RegisteredHardware.enabled`, `create_ok` whether
`registry.create_device` succeeds, `start_ok` whether the created
device's `start().await` succeeds. -/
structure DeviceStartSpec where
  registration_id : String
  enabled : Bool
  create_ok : Bool
  start_ok : Bool
deriving DecidableEq

/-- The failure modes of `AudioKernelRuntime::start`. -/
inductive KernelError where
  | alreadyRunning
  | deviceStartFailed
  | allDevicesFailed
  | pipelineStartFailed
deriving DecidableEq

/-- The device loop of `AudioKernelRuntime::start` (lines 94-143):
disabled devices are skipped by `continue`; a failed `create_device` is
logged and skipped; a created device whose `start().await?` fails aborts
the whole loop via `?`; a fully started device joins `active_devices`. -/
def kernelStartLoop : List DeviceStartSpec → List String →
    Except KernelError Unit × List String
  | [], acc => (.ok (), acc)
  | d :: rest, acc =>
    if ¬ d.enabled then kernelStartLoop rest acc
    else if ¬ d.create_ok then kernelStartLoop rest acc
    else if ¬ d.start_ok then (.error .deviceStartFailed, acc)
    else kernelStartLoop rest (acc ++ [d.registration_id])

/-- `AudioKernelRuntime::start` (`src/engine/kernel.rs` lines 79-158):
the running check, the device loop, the all-failed check
(`active_devices.is_empty() && num_registered > 0`, where
`num_registered` counts every registered device, disabled ones included)
and the optional pipeline start, abstracted to its success bit.  Returns
the result, the final status and the active registration ids. -/
def kernelStart (status : KernelStatus) (devices : List DeviceStartSpec)
    (pipeline_start_ok : Option Bool) :
    Except KernelError Unit × KernelStatus × List String :=
  if status = .Running then (.error .alreadyRunning, status, [])
  else
    match kernelStartLoop devices [] with
    | (.error e, active) => (.error e, .Initializing, active)
    | (.ok _, active) =>
      if active = [] ∧ 0 < devices.length then
        (.error .allDevicesFailed, .Error, active)
      else
        match pipeline_start_ok with
        | some false => (.error .pipelineStartFailed, .Initializing, active)
        | _ => (.ok (), .Running, active)

theorem kernelStartLoop_error_iff (devices : List DeviceStartSpec) :
    ∀ acc, (kernelStartLoop devices acc).1 = .error .deviceStartFailed
      ↔ ∃ d ∈ devices, d.enabled = true ∧ d.create_ok = true
          ∧ d.start_ok = false := by
  induction devices with
  | nil =>
    intro acc
    constructor
    · intro h
      simp [kernelStartLoop] at h
    · rintro ⟨d, hd, _⟩
      exact absurd hd (List.not_mem_nil d)
  | cons d rest ih =>
    intro acc
    by_cases he : d.enabled = true
    · by_cases hc : d.create_ok = true
      · by_cases hs : d.start_ok = true
        · have hstep : kernelStartLoop (d :: rest) acc
              = kernelStartLoop rest (acc ++ [d.registration_id]) := by
            simp [kernelStartLoop, he, hc, hs]
          rw [hstep, ih]
          constructor
          · rintro ⟨d', hd', h'⟩
            exact ⟨d', List.mem_cons_of_mem d hd', h'⟩
          · rintro ⟨d', hd', h'⟩
            rcases List.mem_cons.mp hd' with rfl | hmem
            · have hcontra := h'.2.2
              rw [hs] at hcontra
              simp at hcontra
            · exact ⟨d', hmem, h'⟩
        · have hstep : kernelStartLoop (d :: rest) acc
              = (.error .deviceStartFailed, acc) := by
            simp [kernelStartLoop, he, hc, hs]
          rw [hstep]
          constructor
          · intro _
            exact ⟨d, List.mem_cons_self d rest, he, hc, by simpa using hs⟩
          · intro _
            rfl
      · have hstep : kernelStartLoop (d :: rest) acc = kernelStartLoop rest acc := by
          simp [kernelStartLoop, he, hc]
        rw [hstep, ih]
        constructor
        · rintro ⟨d', hd', h'⟩
          exact ⟨d', List.mem_cons_of_mem d hd', h'⟩
        · rintro ⟨d', hd', h'⟩
          rcases List.mem_cons.mp hd' with rfl | hmem
          · exact absurd h'.2.1 hc
          · exact ⟨d', hmem, h'⟩
    · have hstep : kernelStartLoop (d :: rest) acc = kernelStartLoop rest acc := by
        simp [kernelStartLoop, he]
      rw [hstep, ih]
      constructor
      · rintro ⟨d', hd', h'⟩
        exact ⟨d', List.mem_cons_of_mem d hd', h'⟩
      · rintro ⟨d', hd', h'⟩
        rcases List.mem_cons.mp hd' with rfl | hmem
        · exact absurd h'.1 he
        · exact ⟨d', hmem, h'⟩

theorem kernelStartLoop_ok (devices : List DeviceStartSpec)
    (h : ∀ d ∈ devices, d.enabled = true → d.create_ok = true →
      d.start_ok = true) :
    ∀ acc, kernelStartLoop devices acc = (.ok (),
      acc ++ (devices.filter (fun d => d.enabled && d.create_ok)).map
        (fun d => d.registration_id)) := by
  induction devices with
  | nil =>
    intro acc
    simp [kernelStartLoop]
  | cons d rest ih =>
    intro acc
    have hrest := ih (fun d' hd' => h d' (List.mem_cons_of_mem d hd'))
    by_cases he : d.enabled
    · by_cases hc : d.create_ok
      · have hs := h d (List.mem_cons_self d rest) he hc
        simp only [kernelStartLoop, he, hc, hs, not_true, if_false,
          hrest, List.filter_cons]
        simp [he, hc, List.append_assoc]
      · simp only [kernelStartLoop, he, hc, not_true, not_false_eq_true,
          if_false, if_true, hrest, List.filter_cons]
        simp [he, hc]
    · simp only [kernelStartLoop, he, not_false_eq_true, if_true, hrest,
        List.filter_cons]
      simp [he]

/-- C4 (amended): with the kernel not already running, `start` fails with
the device-start error exactly when some enabled device is created but
fails to start (so a single start failure *aborts* `start`, it is not
skipped); creation failures alone are skipped, and — in the absence of a
start abort — the kernel moves to `Error` with the all-devices-failed
error exactly when at least one device is registered and no enabled
device was created. -/
theorem c4_kernel_start (st : KernelStatus) (devices : List DeviceStartSpec)
    (pok : Option Bool) (hst : st ≠ .Running) :
    ((kernelStart st devices pok).1 = .error .deviceStartFailed
      ↔ ∃ d ∈ devices, d.enabled = true ∧ d.create_ok = true
          ∧ d.start_ok = false)
    ∧ ((∀ d ∈ devices, d.enabled = true → d.create_ok = true →
          d.start_ok = true) →
        (((kernelStart st devices pok).2.1 = .Error
            ∧ (kernelStart st devices pok).1 = .error .allDevicesFailed)
          ↔ (devices ≠ []
              ∧ ∀ d ∈ devices, ¬(d.enabled = true ∧ d.create_ok = true)))) := by
  constructor
  · have herr := kernelStartLoop_error_iff devices []
    unfold kernelStart
    rw [if_neg hst]
    cases hloop : kernelStartLoop devices [] with
    | mk res active =>
      rw [hloop] at herr
      cases res with
      | error e =>
        simp only at herr ⊢
        constructor
        · intro h
          exact herr.mp (by rw [← h])
        · intro hex
          rw [Except.error.injEq] at herr
          rw [herr.mpr hex]
      | ok u =>
        simp only at herr ⊢
        constructor
        · intro h
          exfalso
          split at h
          · cases h
          · split at h <;> cases h
        · intro hex
          exact absurd (herr.mpr hex) (by simp)
  · intro hnoabort
    have hok := kernelStartLoop_ok devices hnoabort []
    unfold kernelStart
    rw [if_neg hst, hok]
    simp only [List.nil_append]
    by_cases hA : (devices.filter (fun d => d.enabled && d.create_ok)).map
        (fun d => d.registration_id) = [] ∧ 0 < devices.length
    · rw [if_pos hA]
      simp only [true_and]
      constructor
      · intro _
        refine ⟨fun hnil => by rw [hnil] at hA; simp at hA, ?_⟩
        intro d hd hcond
        have hfil : devices.filter (fun d => d.enabled && d.create_ok) = [] :=
          List.map_eq_nil.mp hA.1
        have := List.filter_eq_nil.mp hfil d hd
        rw [hcond.1, hcond.2] at this
        simp at this
      · intro _
        trivial
    · rw [if_neg hA]
      constructor
      · intro h
        exfalso
        cases hpk : pok with
        | none =>
          rw [hpk] at h
          cases h.1
        | some b =>
          cases b <;> rw [hpk] at h <;> cases h.1
      · intro ⟨hne, hall⟩
        exfalso
        apply hA
        constructor
        · rw [List.map_eq_nil]
          rw [List.filter_eq_nil]
          intro d hd
          have := hall d hd
          intro hb
          rw [Bool.and_eq_true] at hb
          exact this hb
        · cases devices with
          | nil => exact absurd rfl hne
          | cons d rest => simp

/-- C4 counterexample: with two enabled devices, the first created but
failing to start and the second healthy, `start` aborts with the
device-start error (active set empty, status left `Initializing`) —
the failure of a single device to start is *not* skipped. -/
theorem c4_counterexample :
    kernelStart .Stopped
      [⟨"d1", true, true, false⟩, ⟨"d2", true, true, true⟩] none
      = (.error .deviceStartFailed, .Initializing, [])
    ∧ (kernelStart .Stopped
        [⟨"d1", true, true, false⟩, ⟨"d2", true, true, true⟩] none).1
      ≠ .ok () := by
  constructor
  · rfl
  · intro h
    cases h

/-- Witness for `c4_kernel_start`: a single enabled device whose creation
fails moves the kernel to `Error` with the all-devices-failed error. -/
theorem c4_kernel_start_witness :
    (kernelStart .Stopped [⟨"a", true, false, true⟩] none).2.1 = .Error
    ∧ (kernelStart .Stopped [⟨"a", true, false, true⟩] none).1
      = .error .allDevicesFailed := by
  have h := c4_kernel_start .Stopped [⟨"a", true, false, true⟩] none (by decide)
  have h2 := (h.2 (by decide)).mpr ⟨by decide, by decide⟩
  exact ⟨h2.1, h2.2⟩

end Audiotab
